import Mathlib

/-!
Shallow embedding of the resilient request-orchestration layer of the
Prompt Forge server (`server.js`) together with proofs about the claims of
its specification.

Strings are modelled as Lean `String` / `List Char`.  JavaScript regular
expression replaces are embedded as structurally recursive scanners whose
left-to-right, non-overlapping, greedy semantics matches
`String.prototype.replace` with a `g` flag.  JavaScript truthiness of a
string is "non-empty"; `trim` uses the JS white-space set.
-/

set_option maxHeartbeats 1000000
set_option maxRecDepth 100000

namespace PromptForge

/-- White-space characters recognized by JavaScript `\s`, `trim()` and
`String.prototype.trim`: tab, LF, VT, FF, CR, space, NBSP, and the Unicode
space/line separators. -/
def isJsWs (c : Char) : Bool :=
  c.toNat = 9 || c.toNat = 10 || c.toNat = 11 || c.toNat = 12 || c.toNat = 13 ||
  c.toNat = 32 || c.toNat = 160 || c.toNat = 5760 ||
  (8192 ≤ c.toNat && c.toNat ≤ 8202) ||
  c.toNat = 8232 || c.toNat = 8233 || c.toNat = 8239 || c.toNat = 8287 ||
  c.toNat = 12288 || c.toNat = 65279

/-- Drop the leading JS white-space of a character list (the front half of
`String.prototype.trim`). -/
def dropLeadWs : List Char → List Char
  | [] => []
  | c :: rest => if isJsWs c then dropLeadWs rest else c :: rest

/-- JavaScript `String.prototype.trim` on character lists: drop white space
from the front, then from the back (via `reverse`). -/
def jsTrimL (l : List Char) : List Char :=
  (dropLeadWs (dropLeadWs l).reverse).reverse

/-- JavaScript `String.prototype.trim`. -/
def jsTrim (s : String) : String :=
  String.mk (jsTrimL s.data)

/-- Does `pat` occur at the head of `l`?  (Helper for substring search.) -/
def startsWithL : List Char → List Char → Bool
  | _, [] => true
  | [], _ :: _ => false
  | c :: l, p :: ps => c = p && startsWithL l ps

/-- Does `pat` occur anywhere (contiguously) in `l`?  This is the semantics
of JavaScript `String.prototype.includes`. -/
def containsSub : List Char → List Char → Bool
  | l, pat =>
    if startsWithL l pat then true
    else match l with
      | [] => false
      | _ :: rest => containsSub rest pat

/-- JavaScript `hay.includes(needle)`. -/
def jsIncludes (hay needle : String) : Bool :=
  containsSub hay.data needle.data

/-- First stage of `normalizePrompt`: the JS replace `/\r\n/g → "\n"`.
The scanner replaces each (left-to-right, non-overlapping) `"\r\n"`
occurrence by `"\n"`, exactly as the global regex replace does. -/
def unifyEol : List Char → List Char
  | [] => []
  | [c] => [c]
  | c :: d :: rest =>
    if c = '\r' ∧ d = '\n' then '\n' :: unifyEol rest
    else c :: unifyEol (d :: rest)

/-- Second stage of `normalizePrompt`: the JS replace `/\n{3,}/g → "\n\n"`.
Each maximal run of `n ≥ 3` newlines becomes two newlines; shorter runs are
kept.  `k` counts the newlines of the current run seen so far: the first two
newlines of a run are emitted, the rest are dropped, which is exactly
"replace every maximal run of three or more by two". -/
def collapseNlGo : Nat → List Char → List Char
  | _, [] => []
  | k, c :: rest =>
    if c = '\n' then
      if 2 ≤ k then collapseNlGo (k + 1) rest
      else '\n' :: collapseNlGo (k + 1) rest
    else c :: collapseNlGo 0 rest

/-- The JS replace `/\n{3,}/g → "\n\n"` on character lists. -/
def collapseNl (l : List Char) : List Char :=
  collapseNlGo 0 l

/-- `normalizePrompt` from `server.js`: unify line endings, collapse runs of
three or more newlines to two, and trim.  (The JS function returns `""` for
non-string input; the handler embedding feeds it only strings.) -/
def normalizePrompt (value : String) : String :=
  String.mk (jsTrimL (collapseNl (unifyEol value.data)))

/-- The JS replace `/\s+/g → " "` used by `buildLocalFallbackPrompt`:
each maximal run of white space becomes a single space.  `inRun` records
whether the previous character was white space (further white space of the
same run is dropped). -/
def collapseWsGo : Bool → List Char → List Char
  | _, [] => []
  | inRun, c :: rest =>
    if isJsWs c then
      if inRun then collapseWsGo true rest
      else ' ' :: collapseWsGo true rest
    else c :: collapseWsGo false rest

/-- The JS replace `/\s+/g → " "` on character lists. -/
def collapseWs (l : List Char) : List Char :=
  collapseWsGo false l

/-- `String(userPrompt || "").replace(/\s+/g, " ").trim()` from
`buildLocalFallbackPrompt` in `server.js`. -/
def concisePromptOf (userPrompt : String) : String :=
  String.mk (jsTrimL (collapseWs userPrompt.data))

/-- JavaScript `toLowerCase`; `Char.toLower` lower-cases exactly the ASCII
letters, which covers the embedding's keyword alphabet. -/
def jsToLower (s : String) : String :=
  String.mk (s.data.map Char.toLower)

/-- `hasAnyKeyword` from `server.js`: true when some keyword occurs in the
text (`Array.prototype.some` over `String.prototype.includes`). -/
def hasAnyKeyword (text : String) (keywords : List String) : Bool :=
  if text = "" ∨ keywords = [] then false
  else keywords.any (fun k => jsIncludes text k)

/-- The health/diet keyword set of `buildLocalFallbackPrompt`. -/
def healthKeywords : List String :=
  ["dieta", "alimentazione", "dimagr", "calorie", "fitness", "allenamento", "nutriz"]

/-- The marketing keyword set of `buildLocalFallbackPrompt`. -/
def marketingKeywords : List String :=
  ["marketing", "campagna", "lead", "funnel", "brand", "social", "ads", "seo",
   "ecommerce", "vendit", "growth"]

/-- The coding keyword set of `buildLocalFallbackPrompt`. -/
def codingKeywords : List String :=
  ["codice", "bug", "debug", "javascript", "typescript", "python", "node", "api",
   "app", "frontend", "backend", "deploy", "server"]

/-- The study keyword set of `buildLocalFallbackPrompt`. -/
def studyKeywords : List String :=
  ["stud", "esame", "tesi", "impar", "apprendere", "riassunto", "piano studio"]

/-- JavaScript `Array.prototype.join("\n")` on a list of strings. -/
def joinLines : List String → String
  | [] => ""
  | [s] => s
  | s :: rest => s ++ "\n" ++ joinLines rest

/-- The health template of `buildLocalFallbackPrompt` (lines transcribed
from `server.js`). -/
def healthTemplate (concisePrompt : String) : String :=
  joinLines
    ["Agisci come nutrizionista educativo (non medico) e personal trainer della nutrizione.",
     "Obiettivo: aiutarmi a iniziare una dieta in modo sano, sostenibile e realistico.",
     "",
     "Richiesta di partenza:",
     concisePrompt,
     "",
     "Prima parte (domande chiarificatrici, max 3):",
     "- Obiettivo principale (dimagrimento, ricomposizione, salute).",
     "- Restrizioni/preferenze alimentari e budget.",
     "- Livello di attivita fisica e routine giornaliera.",
     "",
     "Seconda parte (output pratico):",
     "1. Strategia alimentare semplice per 4 settimane.",
     "2. Calorie/macronutrienti stimate con range (non prescrizione medica).",
     "3. Esempio menu 7 giorni (colazione, pranzo, cena, spuntini).",
     "4. Lista spesa settimanale.",
     "5. Errori da evitare e come gestire fame/sbalzi di motivazione.",
     "6. Piano monitoraggio progressi (peso, circonferenze, energia).",
     "",
     "Vincoli:",
     "- Italiano chiaro, tono pratico.",
     "- Nessuna promessa irrealistica.",
     "- Se emergono segnali clinici, consiglia consulto con dietista/medico."]

/-- The marketing template of `buildLocalFallbackPrompt`. -/
def marketingTemplate (concisePrompt : String) : String :=
  joinLines
    ["Ruolo: Sei un growth marketer senior orientato ai risultati.",
     "Obiettivo: creare un piano marketing concreto, misurabile e sostenibile.",
     "Richiesta utente: " ++ concisePrompt,
     "Output richiesto:",
     "1. Sintesi strategica in 4-6 righe (target, proposta di valore, canali prioritari).",
     "2. Piano operativo 90 giorni in fasi: setup, test, ottimizzazione, scala.",
     "3. Canali consigliati con motivazione e KPI per ciascun canale.",
     "4. Budget indicativo low/medium/high e ripartizione percentuale.",
     "5. Calendario contenuti/campagne per 4 settimane.",
     "6. Dashboard KPI minima (CAC, CPL, conversion rate, ROAS, LTV) con soglie target.",
     "Vincoli:",
     "- Italiano chiaro, zero teoria superflua.",
     "- Passi numerati e azionabili subito.",
     "- Evidenzia ipotesi da validare."]

/-- The coding template of `buildLocalFallbackPrompt`. -/
def codingTemplate (concisePrompt : String) : String :=
  joinLines
    ["Ruolo: Sei un software engineer senior pragmatico.",
     "Obiettivo: fornire una soluzione tecnica implementabile rapidamente.",
     "Richiesta utente: " ++ concisePrompt,
     "Formato output:",
     "1. Diagnosi rapida del problema o obiettivo tecnico.",
     "2. Piano step-by-step con comandi/esempi concreti.",
     "3. Patch di codice proposta (snippets pronti da incollare).",
     "4. Checklist di verifica e test minimi.",
     "Vincoli:",
     "- Evita astrazioni inutili.",
     "- Specifica assunzioni e limiti.",
     "- Mantieni compatibilita con stack web moderno."]

/-- The study template of `buildLocalFallbackPrompt`. -/
def studyTemplate (concisePrompt : String) : String :=
  joinLines
    ["Ruolo: Sei un tutor esperto in metodo di studio.",
     "Obiettivo: costruire un piano di apprendimento realistico e progressivo.",
     "Richiesta utente: " ++ concisePrompt,
     "Formato output:",
     "1. Obiettivo concreto (misurabile) e livello attuale ipotizzato.",
     "2. Piano settimanale con blocchi giornalieri e priorita.",
     "3. Tecniche pratiche (active recall, spaced repetition, esercizi).",
     "4. Metriche di avanzamento e checkpoint.",
     "5. Errori comuni da evitare.",
     "Vincoli:",
     "- Linguaggio semplice e operativo.",
     "- Nessun consiglio generico non applicabile."]

/-- The generic (no keyword matched) template of `buildLocalFallbackPrompt`. -/
def genericTemplate (concisePrompt : String) : String :=
  joinLines
    ["Ruolo: Sei un assistente esperto e pragmatico orientato all\x27azione.",
     "Obiettivo: Fornire una risposta utile, concreta e immediatamente applicabile.",
     "Richiesta utente: " ++ concisePrompt,
     "Vincoli di qualita:",
     "- Linguaggio chiaro e in italiano.",
     "- Soluzione in passi numerati.",
     "- Evidenzia assunzioni e limiti.",
     "- Evita invenzioni non verificabili.",
     "Formato output richiesto:",
     "1. Sintesi in 2-3 righe",
     "2. Piano pratico step-by-step",
     "3. Checklist finale",
     "Domande chiarificatrici (max 3) solo se strettamente necessarie."]

/-- `buildLocalFallbackPrompt` from `server.js`: whitespace-collapse and trim
the prompt, classify its lower-cased form against the four keyword sets in
priority order health, marketing, coding, study, and fill the corresponding
template (the generic one when nothing matches). -/
def buildLocalFallbackPrompt (userPrompt : String) : String :=
  let concisePrompt := concisePromptOf userPrompt
  let lowerPrompt := jsToLower concisePrompt
  if hasAnyKeyword lowerPrompt healthKeywords then healthTemplate concisePrompt
  else if hasAnyKeyword lowerPrompt marketingKeywords then marketingTemplate concisePrompt
  else if hasAnyKeyword lowerPrompt codingKeywords then codingTemplate concisePrompt
  else if hasAnyKeyword lowerPrompt studyKeywords then studyTemplate concisePrompt
  else genericTemplate concisePrompt

/-! ### Upstream response model -/

/-- A part of an `output_text` array or of a `content` array: either a bare
string or an object with optional `type`, `text`, `value` and `refusal`
string fields (`none` models an absent or non-string field). -/
inductive JPart where
  | jstr (s : String)
  | jobj (ptype text value refusal : Option String)
deriving DecidableEq

/-- A `content` field: absent (or non-string non-array), a bare string, or
an array of parts. -/
inductive JContent where
  | absent
  | str (s : String)
  | arr (parts : List JPart)
deriving DecidableEq

/-- An element of a response's `output` array. -/
structure JItem where
  itype : Option String
  text : Option String
  content : JContent
  refusal : Option String
deriving DecidableEq

/-- An `output_text` field: absent, a flat string, or an array of parts. -/
inductive JOutputText where
  | absent
  | str (s : String)
  | arr (parts : List JPart)
deriving DecidableEq

/-- A legacy chat-completions message (`choice.message`). -/
structure JMessage where
  content : JContent
  refusal : Option String
deriving DecidableEq

/-- A legacy chat-completions `choices` entry. -/
structure JChoice where
  message : Option JMessage
deriving DecidableEq

/-- The upstream response shape visible to the extraction and polling
helpers of `server.js`.  `incomplete_reason` models
`incomplete_details.reason`. -/
structure JResponse where
  id : Option String
  status : Option String
  output_text : JOutputText
  output : Option (List JItem)
  choices : Option (List JChoice)
  incomplete_reason : Option String
deriving DecidableEq

/-- `getIncompleteReason` from `server.js`:
`response?.incomplete_details?.reason || ""`. -/
def getIncompleteReason (response : JResponse) : String :=
  response.incomplete_reason.getD ""

/-- `isPendingResponseStatus` from `server.js`. -/
def isPendingResponseStatus (status : Option String) : Bool :=
  status == some "queued" || status == some "in_progress"

/-! ### Output extraction -/

/-- One chunk of a `choices` message-content part
(`extractTextFromChoices` inner loop). -/
def choicePartChunks : JPart → List String
  | .jstr s => if jsTrim s ≠ "" then [jsTrim s] else []
  | .jobj _ t _ _ =>
    match t with
    | some ts => if jsTrim ts ≠ "" then [jsTrim ts] else []
    | none => []

/-- The chunks contributed by one `choices` entry
(`extractTextFromChoices` outer loop). -/
def choiceChunks (choice : JChoice) : List String :=
  match choice.message with
  | none => []
  | some m =>
    match m.content with
    | .str s => if jsTrim s ≠ "" then [jsTrim s] else []
    | .arr parts => parts.bind choicePartChunks
    | .absent => []

/-- `extractTextFromChoices` from `server.js`. -/
def extractTextFromChoices (response : JResponse) : String :=
  match response.choices with
  | none => ""
  | some choices =>
    if choices.length = 0 then ""
    else jsTrim (joinLines (choices.bind choiceChunks))

/-- The `.map` body of strategy 2 of `extractOutputText` (array-shaped
`output_text`): a string part is trimmed, otherwise the `text` then the
`value` field is used; anything else maps to `""`. -/
def outputTextPartChunk : JPart → String
  | .jstr s => jsTrim s
  | .jobj _ t v _ =>
    match t with
    | some ts => jsTrim ts
    | none =>
      match v with
      | some vs => jsTrim vs
      | none => ""

/-- The chunks a `content` part contributes in strategy 3 of
`extractOutputText`.  (The third source branch, for parts of type
`output_text`, is unreachable: it requires the same non-blank `text` the
second branch already consumed; it is kept for fidelity.) -/
def itemContentChunk : JPart → List String
  | .jstr s => if jsTrim s ≠ "" then [jsTrim s] else []
  | .jobj ty t _ _ =>
    match t with
    | some ts =>
      if jsTrim ts ≠ "" then [jsTrim ts]
      else if ty = some "output_text" ∧ jsTrim ts ≠ "" then [jsTrim ts]
      else []
    | none => []

/-- The chunks one `output` item contributes in strategy 3 of
`extractOutputText`: its `text` field, then either a string `content` or
the parts of an array `content`. -/
def itemChunks (item : JItem) : List String :=
  let textChunk := match item.text with
    | some t => if jsTrim t ≠ "" then [jsTrim t] else []
    | none => []
  match item.content with
  | .str s => if jsTrim s ≠ "" then textChunk ++ [jsTrim s] else textChunk
  | .absent => textChunk
  | .arr parts => textChunk ++ parts.bind itemContentChunk

/-- `extractOutputText` from `server.js`: flat `output_text`, then array
`output_text`, then the structured `output` scan, then the legacy
`choices` fallback. -/
def extractOutputText (response : JResponse) : String :=
  let flat := match response.output_text with
    | .str s => jsTrim s
    | _ => ""
  if flat ≠ "" then flat
  else
    let fromArray := match response.output_text with
      | .arr parts =>
        if parts.length > 0 then
          jsTrim (joinLines ((parts.map outputTextPartChunk).filter (fun x => x != "")))
        else ""
      | _ => ""
    if fromArray ≠ "" then fromArray
    else
      match response.output with
      | none => extractTextFromChoices response
      | some output =>
        let out := jsTrim (joinLines (output.bind itemChunks))
        if out ≠ "" then out else extractTextFromChoices response

/-- The refusal chunks of one `content` part (`extractRefusalText` inner
loop): a string `refusal` field first, else a part of type `refusal` with
a non-blank `text`. -/
def refusalPartChunks : JPart → List String
  | .jstr _ => []
  | .jobj ty t _ r =>
    let primary := match r with
      | some rs => if jsTrim rs ≠ "" then [jsTrim rs] else []
      | none => []
    if primary ≠ [] then primary
    else if ty = some "refusal" then
      match t with
      | some ts => if jsTrim ts ≠ "" then [jsTrim ts] else []
      | none => []
    else []

/-- The refusal chunks of one `output` item (`extractRefusalText` outer
loop). -/
def refusalItemChunks (item : JItem) : List String :=
  let own := match item.refusal with
    | some rs => if jsTrim rs ≠ "" then [jsTrim rs] else []
    | none => []
  match item.content with
  | .arr parts => own ++ parts.bind refusalPartChunks
  | _ => own

/-- The refusal chunks of one `choices` entry (`extractRefusalText`
fallback loop). -/
def choiceRefusalChunks (choice : JChoice) : List String :=
  match choice.message with
  | none => []
  | some m =>
    let direct := match m.refusal with
      | some rs => if jsTrim rs ≠ "" then [jsTrim rs] else []
      | none => []
    if direct ≠ [] then direct
    else
      match m.content with
      | .arr parts => parts.bind (fun part =>
          match part with
          | .jstr _ => []
          | .jobj _ _ _ r =>
            match r with
            | some rs => if jsTrim rs ≠ "" then [jsTrim rs] else []
            | none => [])
      | _ => []

/-- `extractRefusalText` from `server.js`. -/
def extractRefusalText (response : JResponse) : String :=
  let chunks := match response.output with
    | some output => output.bind refusalItemChunks
    | none => []
  if chunks.length > 0 then jsTrim (joinLines chunks)
  else
    let choices := match response.choices with
      | some cs => cs
      | none => []
    jsTrim (joinLines (choices.bind choiceRefusalChunks))

/-- Strategy 1 of claim C6, written from the specification's words: a
non-blank flat string `output_text` field, trimmed. -/
def specFlatStrategy (response : JResponse) : String :=
  match response.output_text with
  | .str s => jsTrim s
  | _ => ""

/-- Strategy 2 of claim C6: an array `output_text` field joined from its
non-blank trimmed segments with newline. -/
def specArrayStrategy (response : JResponse) : String :=
  match response.output_text with
  | .arr parts =>
    if parts.length > 0 then
      jsTrim (joinLines ((parts.map outputTextPartChunk).filter (fun x => x != "")))
    else ""
  | _ => ""

/-- Strategy 3 of claim C6: the structured output-item scan. -/
def specStructuredStrategy (response : JResponse) : String :=
  match response.output with
  | some output => jsTrim (joinLines (output.bind itemChunks))
  | none => ""

/-- Strategy 4 of claim C6: the legacy chat-style `choices` fallback. -/
def specChoicesStrategy (response : JResponse) : String :=
  extractTextFromChoices response

/-! ### Diagnosis -/

/-- The fields of a per-attempt debug record (the output of
`buildResponseDebugInfo`) that `buildEmptyOutputDiagnosis` inspects.  A
missing response status is recorded as `""`. -/
structure DebugInfo where
  status : String
  incomplete_reason : String
  output_count : Nat
  has_web_search_call : Bool
  has_output_text : Bool
  has_refusal : Bool
deriving DecidableEq

/-- A `{root_cause, summary}` pair. -/
structure Diagnosis where
  root_cause : String
  summary : String
deriving DecidableEq

/-- `buildEmptyOutputDiagnosis` from `server.js`: the ordered, first-match
decision table over the first recorded attempt. -/
def buildEmptyOutputDiagnosis (trace : List DebugInfo) : Diagnosis :=
  match trace with
  | [] =>
    ⟨"missing_first_attempt_trace",
     "Nessuna traccia del primo tentativo disponibile."⟩
  | firstAttempt :: _ =>
    if firstAttempt.has_output_text then
      ⟨"no_empty_output_first_attempt",
       "Il primo tentativo ha gia prodotto testo utile."⟩
    else if firstAttempt.has_refusal then
      ⟨"first_attempt_refusal",
       "Il primo tentativo contiene una refusal e non testo utilizzabile."⟩
    else if firstAttempt.incomplete_reason = "max_output_tokens" then
      ⟨"max_output_tokens_reached",
       "Il primo tentativo e stato interrotto per limite token."⟩
    else if firstAttempt.status ≠ "" ∧ firstAttempt.status ≠ "completed" then
      ⟨"first_attempt_not_completed",
       "Il primo tentativo e terminato con status=" ++ firstAttempt.status ++ "."⟩
    else if firstAttempt.has_web_search_call ∧ ¬ firstAttempt.has_output_text then
      ⟨"web_search_without_final_text",
       "Il primo tentativo ha eseguito web_search ma non ha emesso output_text finale."⟩
    else if firstAttempt.output_count = 0 then
      ⟨"first_attempt_no_output_items",
       "Il primo tentativo non contiene elementi in output."⟩
    else
      ⟨"first_attempt_non_text_output",
       "Il primo tentativo contiene output non testuale."⟩

/-- The ordered decision table of claim C4 (spec section 4.6), written from
the specification's words, for comparison with
`buildEmptyOutputDiagnosis`. -/
def specDiagnosisRootCause (firstAttempt : DebugInfo) : String :=
  if firstAttempt.has_output_text then "no_empty_output_first_attempt"
  else if firstAttempt.has_refusal then "first_attempt_refusal"
  else if firstAttempt.incomplete_reason = "max_output_tokens" then
    "max_output_tokens_reached"
  else if firstAttempt.status ≠ "" ∧ firstAttempt.status ≠ "completed" then
    "first_attempt_not_completed"
  else if firstAttempt.has_web_search_call then "web_search_without_final_text"
  else if firstAttempt.output_count = 0 then "first_attempt_no_output_items"
  else "first_attempt_non_text_output"

/-! ### Retrying invoker -/

/-- The outcome of one invocation of the retrying invoker's request
function: a value, or a failure that either is or is not classified as a
timeout by `isTimeoutError`. -/
inductive ProviderOutcome (β : Type) where
  | ok (b : β)
  | err (isTimeout : Bool)
deriving DecidableEq

/-- The result of `requestWithTimeoutRetry`: a value, a non-timeout failure
propagated from attempt `attemptIndex`, or the re-raised timeout failure
with its `attempts` annotation after the budget is exhausted. -/
inductive RWTResult (β : Type) where
  | ok (b : β)
  | nonTimeoutError (attemptIndex : Nat)
  | timeoutExhausted (attempts : Nat)
deriving DecidableEq

/-- The attempt label of `requestWithTimeoutRetry`: the base label for
attempt 0 and `label retry-K` for retry `K`. -/
def attemptLabelOf (label : String) (attempt : Nat) : String :=
  if attempt = 0 then label else label ++ " retry-" ++ toString attempt

/-- The loop of `requestWithTimeoutRetry`.  `requestFn` takes the attempt
index (modelling the sequence of upstream behaviours of one payload), the
timeout and the attempt label; `budget` counts the retries still allowed
(`OPENAI_TIMEOUT_RETRIES - attempt` on entry) and `delta` is the per-retry
timeout increment.  Besides the result, the `(timeoutMs, label)` pair of
every attempt actually made is returned, in order. -/
def rwtrGo {β : Type} (requestFn : Nat → Nat → String → ProviderOutcome β)
    (label : String) (delta : Nat) :
    Nat → Nat → Nat → RWTResult β × List (Nat × String)
  | attempt, 0, timeoutMs =>
    match requestFn attempt timeoutMs (attemptLabelOf label attempt) with
    | .ok b => (.ok b, [(timeoutMs, attemptLabelOf label attempt)])
    | .err false =>
      (.nonTimeoutError attempt, [(timeoutMs, attemptLabelOf label attempt)])
    | .err true =>
      (.timeoutExhausted (attempt + 1), [(timeoutMs, attemptLabelOf label attempt)])
  | attempt, b + 1, timeoutMs =>
    match requestFn attempt timeoutMs (attemptLabelOf label attempt) with
    | .ok v => (.ok v, [(timeoutMs, attemptLabelOf label attempt)])
    | .err false =>
      (.nonTimeoutError attempt, [(timeoutMs, attemptLabelOf label attempt)])
    | .err true =>
      let r := rwtrGo requestFn label delta (attempt + 1) b (timeoutMs + delta)
      (r.1, (timeoutMs, attemptLabelOf label attempt) :: r.2)

/-- `requestWithTimeoutRetry` from `server.js`, with the retry budget
(`OPENAI_TIMEOUT_RETRIES`, default 2) and per-retry timeout increment
(`OPENAI_TIMEOUT_RETRY_DELTA_MS`, default 15000) as parameters.  The
payload is folded into `requestFn`. -/
def requestWithTimeoutRetry {β : Type}
    (requestFn : Nat → Nat → String → ProviderOutcome β)
    (retries delta firstTimeoutMs : Nat) (label : String) :
    RWTResult β × List (Nat × String) :=
  rwtrGo requestFn label delta 0 retries firstTimeoutMs

/-- The `(timeoutMs, label)` pairs the retrying invoker passes to its
request function on attempts `a, a+1, …, a+len-1`, for an initial timeout
`t0` at attempt 0: attempt `j` uses timeout `t0 + j·delta` and the label
`attemptLabelOf label j`. -/
def rwtrCallsFrom (t0 delta : Nat) (label : String) : Nat → Nat → List (Nat × String)
  | _, 0 => []
  | a, len + 1 =>
    (t0 + a * delta, attemptLabelOf label a) :: rwtrCallsFrom t0 delta label (a + 1) len

/-! ### Completion poller -/

/-- The possible terminations of `waitForResponseCompletion`: the returned
response, the raised polling `TimeoutFailure` (with its label and
`timeoutMs`), or a sentinel for exhausted iteration fuel (proved
unreachable). -/
inductive PollResult where
  | done (r : JResponse)
  | pollTimeout (label : String) (timeoutMs : Nat)
  | fuelOut
deriving DecidableEq

/-- JS truthiness of `response.id` as tested by `server.js`
(`!response?.id` in the poller, `typeof id === "string" && id` in the
pipeline). -/
def idTruthy (r : JResponse) : Bool :=
  match r.id with
  | some s => s != ""
  | none => false

/-- The loop of `waitForResponseCompletion`.  `fetch k s` models the result
of the `k`-th `openai.responses.retrieve(s)` re-fetch (`s` is the id being
polled); `maxWait` is `OPENAI_POLL_MAX_WAIT_MS`, `interval` is
`OPENAI_POLL_INTERVAL_MS`, `waited` the accumulated wait and `k` the number
of re-fetches already made (returned alongside the result).  `fuel` only
bounds iteration so the definition is structural; `waitForResponseCompletion`
supplies enough of it, and the claim proof shows `fuelOut` is unreachable. -/
def waitLoopF (fetch : Nat → String → JResponse) (label : String)
    (maxWait interval : Nat) :
    Nat → JResponse → Nat → Nat → PollResult × Nat
  | 0, _, _, k => (.fuelOut, k)
  | fuel + 1, resp, waited, k =>
    if isPendingResponseStatus resp.status then
      if idTruthy resp = false then (.done resp, k)
      else if maxWait ≤ waited then (.pollTimeout (label ++ " polling") maxWait, k)
      else
        waitLoopF fetch label maxWait interval fuel
          (fetch k (resp.id.getD "")) (waited + interval) (k + 1)
    else (.done resp, k)

/-- `waitForResponseCompletion` from `server.js`, returning the outcome and
the number of re-fetches performed. -/
def waitForResponseCompletion (fetch : Nat → String → JResponse)
    (label : String) (maxWait interval : Nat) (initialResponse : JResponse) :
    PollResult × Nat :=
  waitLoopF fetch label maxWait interval (maxWait / interval + 2)
    initialResponse 0 0

/-- The sequence of responses seen while polling from `r` after `k0`
re-fetches have already happened: each step re-fetches by the previous
response's id. -/
def respSeqFrom (fetch : Nat → String → JResponse) (k0 : Nat) (r : JResponse) :
    Nat → JResponse
  | 0 => r
  | j + 1 => fetch (k0 + j) ((respSeqFrom fetch k0 r j).id.getD "")

/-- The polling sequence of an initial response: `respSeq fetch r0 n` is the
response after `n` re-fetches by id. -/
def respSeq (fetch : Nat → String → JResponse) (r0 : JResponse) : Nat → JResponse :=
  respSeqFrom fetch 0 r0

/-! ### Redaction -/

/-- The character class `[A-Za-z0-9_-]` of the `sk-` credential pattern. -/
def isKeyChar (c : Char) : Bool :=
  c.isAlpha || c.isDigit || c = '_' || c = '-'

/-- The replace `/sk-[A-Za-z0-9_-]{12,}/g → "sk-***REDACTED***"` of
`redactSensitiveText`, as a left-to-right greedy scanner.  `fuel` only
bounds iteration (every step consumes at least one character, so the input
length suffices). -/
def redactSkGo : Nat → List Char → List Char
  | 0, l => l
  | fuel + 1, 's' :: 'k' :: '-' :: rest =>
    if 12 ≤ (rest.takeWhile isKeyChar).length then
      "sk-***REDACTED***".data ++ redactSkGo fuel (rest.dropWhile isKeyChar)
    else 's' :: redactSkGo fuel ('k' :: '-' :: rest)
  | fuel + 1, c :: rest => c :: redactSkGo fuel rest
  | _ + 1, [] => []

/-- The first replace of `redactSensitiveText` on character lists. -/
def redactSk (l : List Char) : List Char :=
  redactSkGo l.length l

/-- Case-insensitive (ASCII) literal matching: consume `pat` from the head
of `l`, returning the rest. -/
def dropCI : List Char → List Char → Option (List Char)
  | [], l => some l
  | _ :: _, [] => none
  | p :: ps, c :: cs => if c.toLower = p.toLower then dropCI ps cs else none

/-- The character class `[_\s-]` between `api` and `key` in the second
redaction pattern. -/
def isClsChar (c : Char) : Bool :=
  c = '_' || isJsWs c || c = '-'

/-- The class `[^:\n]` of the second redaction pattern. -/
def notColonNl (c : Char) : Bool :=
  c != ':' && c != '\n'

/-- The value class `[^\s,;]` of the second redaction pattern. -/
def isP2ValChar (c : Char) : Bool :=
  !isJsWs c && c != ',' && c != ';'

/-- Backtracking for the greedy `[_\s-]*` of the second redaction pattern:
try to read the literal `key` (case-insensitively) after `n` class
characters, decreasing `n` until a split works. -/
def findKeySplit (l : List Char) : Nat → Option (List Char)
  | 0 => dropCI "key".data l
  | n + 1 =>
    match dropCI "key".data (l.drop (n + 1)) with
    | some rest => some rest
    | none => findKeySplit l n

/-- One match attempt of `/(api[_\s-]*key[^:\n]*:\s*)([^\s,;]+)/i` at the
head of `l`: on success, returns the group-1 text (label, through the
`\s*`), the group-2 value token, and the rest of the input. -/
def matchP2 (l : List Char) : Option (List Char × List Char × List Char) :=
  match dropCI "api".data l with
  | none => none
  | some afterApi =>
    match findKeySplit afterApi ((afterApi.takeWhile isClsChar).length) with
    | none => none
    | some afterKeyLit =>
      match afterKeyLit.dropWhile notColonNl with
      | [] => none
      | d :: afterColon =>
        if d = ':' then
          let afterWs := afterColon.dropWhile isJsWs
          let value := afterWs.takeWhile isP2ValChar
          if value.length = 0 then none
          else some (l.take (l.length - afterWs.length), value,
            afterWs.drop value.length)
        else none

/-- The replace `/(api[_\s-]*key[^:\n]*:\s*)([^\s,;]+)/gi → "$1***REDACTED***"`
of `redactSensitiveText`, as a left-to-right scanner over non-overlapping
matches.  `fuel` only bounds iteration (every step consumes at least one
character). -/
def redactApiKeyGo : Nat → List Char → List Char
  | 0, l => l
  | _ + 1, [] => []
  | fuel + 1, c :: rest =>
    match matchP2 (c :: rest) with
    | some (label, _, restAfter) =>
      label ++ "***REDACTED***".data ++ redactApiKeyGo fuel restAfter
    | none => c :: redactApiKeyGo fuel rest

/-- The second replace of `redactSensitiveText` on character lists. -/
def redactApiKey (l : List Char) : List Char :=
  redactApiKeyGo l.length l

/-- `redactSensitiveText` from `server.js`: strip `sk-…` credentials, then
api-key-labelled values. -/
def redactSensitiveText (value : String) : String :=
  if value = "" then ""
  else String.mk (redactApiKey (redactSk value.data))

/-- Does the credential pattern `sk-[A-Za-z0-9_-]{12,}` match at the head
of `l`?  (Property checker for the redaction claim.) -/
def skAt (l : List Char) : Bool :=
  startsWithL l ['s', 'k', '-'] &&
    decide (12 ≤ ((l.drop 3).takeWhile isKeyChar).length)

/-- Does the credential pattern `sk-[A-Za-z0-9_-]{12,}` match anywhere in
`l`? -/
def hasSkSecret : List Char → Bool
  | [] => false
  | c :: rest => skAt (c :: rest) || hasSkSecret rest

/-- Is the api-key-labelled value at the head of `l` (if any) the redaction
placeholder? -/
def p2CleanAt (l : List Char) : Bool :=
  match matchP2 l with
  | some (_, v, _) => decide (v = "***REDACTED***".data)
  | none => true

/-- Is every api-key-labelled value occurring in `l` the redaction
placeholder? -/
def p2Clean : List Char → Bool
  | [] => true
  | c :: rest => p2CleanAt (c :: rest) && p2Clean rest

/-! ### Request handler and escalation pipeline -/

/-- `OPENAI_TIMEOUT_WEB_SEARCH_MS` (default configuration). -/
def OPENAI_TIMEOUT_WEB_SEARCH_MS : Nat := 30000

/-- A failure thrown by an upstream call: a `TimeoutFailure` produced by
the timeout/polling primitives (which carry code `TIMEOUT`, a label, a
timeout and possibly an `attempts` annotation; `0` models an absent
number), or any other upstream error with its status (`0` models a
missing/falsy `error.status`) and message. -/
inductive UpErr where
  | timeoutE (label : String) (timeoutMs attempts : Nat)
  | upstreamE (status : Nat) (message : String)
deriving DecidableEq

/-- The behaviour of the upstream provider during one request: the outcome
of each escalation step.  Steps 3 and 5 (`finalize_from_previous_…`)
receive the id of the response they continue from. -/
structure Oracle where
  step1 : Except UpErr JResponse
  step2 : Except UpErr JResponse
  step3 : String → Except UpErr JResponse
  step4 : Except UpErr JResponse
  step5 : String → Except UpErr JResponse

/-- The parts of a `POST /api/improve` HTTP response that the claims
mention; absent JSON body fields are `none`.  The debug payload's `trace`
is modelled as the list of `(step name, response)` pairs pushed by
`pushDebugTrace`. -/
structure HttpResponse where
  status : Nat
  promptField : Option String
  errorField : Option String
  recoveredFromEmptyOutput : Option Bool
  usedLocalFallback : Option Bool
  usedNoWebRecovery : Option Bool
  trace : List (String × JResponse)
deriving DecidableEq

/-- `isTimeoutError` from `server.js`: code `TIMEOUT`, or a message whose
lower-cased form contains `timeout` or `timed out`. -/
def isTimeoutError : UpErr → Bool
  | .timeoutE _ _ _ => true
  | .upstreamE _ m =>
    jsIncludes (jsToLower m) "timeout" || jsIncludes (jsToLower m) "timed out"

/-- The timeout branch of the handler's catch block (`server.js` lines
291-334), after the defaulting of `timeoutMs`, `label` and `attempts`. -/
def catchTimeout (prompt : String) (tr : List (String × JResponse))
    (label : String) (timeoutMs attempts : Nat) : HttpResponse :=
  if prompt ≠ "" then
    { status := 200, promptField := some (buildLocalFallbackPrompt prompt),
      errorField := none, recoveredFromEmptyOutput := some true,
      usedLocalFallback := some true, usedNoWebRecovery := none, trace := tr }
  else
    { status := 504, promptField := none,
      errorField := some ("Timeout " ++ label ++ " dopo " ++ toString timeoutMs
        ++ "ms (tentativi: " ++ toString attempts
        ++ "). Riprova con un prompt piu corto."),
      recoveredFromEmptyOutput := none, usedLocalFallback := none,
      usedNoWebRecovery := none, trace := tr }

/-- The non-timeout branch of the handler's catch block (`server.js` lines
336-375). -/
def catchUpstream (prompt : String) (tr : List (String × JResponse))
    (status0 : Nat) (rawMessage : String) : HttpResponse :=
  let status := if status0 = 0 then 502 else status0
  let message := redactSensitiveText rawMessage
  if prompt ≠ "" ∧ 500 ≤ status then
    { status := 200, promptField := some (buildLocalFallbackPrompt prompt),
      errorField := none, recoveredFromEmptyOutput := some true,
      usedLocalFallback := some true, usedNoWebRecovery := none, trace := tr }
  else
    { status := status, promptField := none, errorField := some message,
      recoveredFromEmptyOutput := none, usedLocalFallback := none,
      usedNoWebRecovery := none, trace := tr }

/-- The handler's catch block: timeouts (by code or by message) fall back
locally when a validated prompt exists, other failures propagate per
status. -/
def runCatch (prompt : String) (tr : List (String × JResponse)) :
    UpErr → HttpResponse
  | .timeoutE label tms att =>
    catchTimeout prompt tr label
      (if tms = 0 then OPENAI_TIMEOUT_WEB_SEARCH_MS else tms)
      (if att = 0 then 1 else att)
  | .upstreamE status msg =>
    if isTimeoutError (.upstreamE status msg) then
      catchTimeout prompt tr "OpenAI" OPENAI_TIMEOUT_WEB_SEARCH_MS 1
    else catchUpstream prompt tr status msg

/-- The handler's mutable state between escalation steps: the last
response, the extracted output and (first non-empty) refusal, the recovery
flags and the debug trace. -/
structure PipeState where
  lastResponse : JResponse
  output : String
  refusal : String
  recovered : Bool
  usedNoWeb : Bool
  tr : List (String × JResponse)
deriving DecidableEq

/-- Step 2 (`retry_web_search_direct_text`, `server.js` lines 132-153):
triggered whenever the current output is empty (regardless of any
refusal). -/
def stage2 (o : Oracle) (st : PipeState) :
    Except (UpErr × List (String × JResponse)) PipeState :=
  if st.output = "" then
    match o.step2 with
    | .error e => .error (e, st.tr)
    | .ok r2 =>
      .ok { lastResponse := r2,
            output := extractOutputText r2,
            refusal := if st.refusal = "" then extractRefusalText r2 else st.refusal,
            recovered := (extractOutputText r2 != ""),
            usedNoWeb := st.usedNoWeb,
            tr := st.tr ++ [("retry_web_search_direct_text", r2)] }
  else .ok st

/-- Step 3 (`finalize_from_previous_web_search`, lines 155-177): triggered
only when output and accumulated refusal are both empty and the last
response carries an id. -/
def stage3 (o : Oracle) (st : PipeState) :
    Except (UpErr × List (String × JResponse)) PipeState :=
  if st.output = "" ∧ st.refusal = "" ∧ idTruthy st.lastResponse then
    match o.step3 (st.lastResponse.id.getD "") with
    | .error e => .error (e, st.tr)
    | .ok r3 =>
      .ok { lastResponse := r3,
            output := extractOutputText r3,
            refusal := if st.refusal = "" then extractRefusalText r3 else st.refusal,
            recovered := (extractOutputText r3 != ""),
            usedNoWeb := st.usedNoWeb,
            tr := st.tr ++ [("finalize_from_previous_web_search", r3)] }
  else .ok st

/-- Step 4 (`retry_model_only`, lines 179-203): triggered when output and
refusal are both empty; the recovery flags are only set when it produces
text. -/
def stage4 (o : Oracle) (st : PipeState) :
    Except (UpErr × List (String × JResponse)) PipeState :=
  if st.output = "" ∧ st.refusal = "" then
    match o.step4 with
    | .error e => .error (e, st.tr)
    | .ok r4 =>
      .ok { lastResponse := r4,
            output := extractOutputText r4,
            refusal := if st.refusal = "" then extractRefusalText r4 else st.refusal,
            recovered := if extractOutputText r4 != "" then true else st.recovered,
            usedNoWeb := if extractOutputText r4 != "" then true else st.usedNoWeb,
            tr := st.tr ++ [("retry_model_only", r4)] }
  else .ok st

/-- Step 5 (`finalize_from_previous_model_only`, lines 205-230). -/
def stage5 (o : Oracle) (st : PipeState) :
    Except (UpErr × List (String × JResponse)) PipeState :=
  if st.output = "" ∧ st.refusal = "" ∧ idTruthy st.lastResponse then
    match o.step5 (st.lastResponse.id.getD "") with
    | .error e => .error (e, st.tr)
    | .ok r5 =>
      .ok { lastResponse := r5,
            output := extractOutputText r5,
            refusal := if st.refusal = "" then extractRefusalText r5 else st.refusal,
            recovered := if extractOutputText r5 != "" then true else st.recovered,
            usedNoWeb := if extractOutputText r5 != "" then true else st.usedNoWeb,
            tr := st.tr ++ [("finalize_from_previous_model_only", r5)] }
  else .ok st

/-- The handler's final response construction (lines 232-289): a refusal
with no output is a 422; no output and no refusal is a 200 with the local
fallback; output is a 200 with the output text. -/
def finishPipeline (prompt : String) (st : PipeState) : HttpResponse :=
  if st.output = "" then
    if st.refusal ≠ "" then
      { status := 422, promptField := none, errorField := some st.refusal,
        recoveredFromEmptyOutput := none, usedLocalFallback := none,
        usedNoWebRecovery := none, trace := st.tr }
    else
      { status := 200, promptField := some (buildLocalFallbackPrompt prompt),
        errorField := none, recoveredFromEmptyOutput := some true,
        usedLocalFallback := some true, usedNoWebRecovery := some st.usedNoWeb,
        trace := st.tr }
  else
    { status := 200, promptField := some st.output, errorField := none,
      recoveredFromEmptyOutput := some st.recovered, usedLocalFallback := none,
      usedNoWebRecovery := some st.usedNoWeb, trace := st.tr }

/-- The escalation pipeline of the handler on a validated prompt: the five
steps in order, aborting to the catch block on the first thrown failure. -/
def runPipeline (o : Oracle) (prompt : String) : HttpResponse :=
  match o.step1 with
  | .error e => runCatch prompt [] e
  | .ok r1 =>
    let st1 : PipeState :=
      { lastResponse := r1, output := extractOutputText r1,
        refusal := extractRefusalText r1, recovered := false,
        usedNoWeb := false, tr := [("initial_web_search", r1)] }
    match stage2 o st1 with
    | .error (e, tr) => runCatch prompt tr e
    | .ok st2 =>
      match stage3 o st2 with
      | .error (e, tr) => runCatch prompt tr e
      | .ok st3 =>
        match stage4 o st3 with
        | .error (e, tr) => runCatch prompt tr e
        | .ok st4 =>
          match stage5 o st4 with
          | .error (e, tr) => runCatch prompt tr e
          | .ok st5 => finishPipeline prompt st5

/-- The `POST /api/improve` handler from `server.js`: configuration check,
validation, the five-step escalation pipeline, and the catch block.
`hasKey` models the presence of `OPENAI_API_KEY`, `maxLen` the
`MAX_PROMPT_LENGTH` configuration, and `rawPrompt` the request body's
`prompt` field (`none` when absent or not a string). -/
def improveHandler (o : Oracle) (maxLen : Nat) (hasKey : Bool)
    (rawPrompt : Option String) : HttpResponse :=
  if hasKey = false then
    { status := 500, promptField := none,
      errorField := some "OPENAI_API_KEY non configurata sul server.",
      recoveredFromEmptyOutput := none, usedLocalFallback := none,
      usedNoWebRecovery := none, trace := [] }
  else
    let prompt := normalizePrompt (rawPrompt.getD "")
    if prompt = "" then
      { status := 400, promptField := none,
        errorField := some "Il campo prompt e obbligatorio.",
        recoveredFromEmptyOutput := none, usedLocalFallback := none,
        usedNoWebRecovery := none, trace := [] }
    else if maxLen < prompt.length then
      { status := 400, promptField := none,
        errorField := some ("Prompt troppo lungo: massimo " ++ toString maxLen
          ++ " caratteri."),
        recoveredFromEmptyOutput := none, usedLocalFallback := none,
        usedNoWebRecovery := none, trace := [] }
    else runPipeline o prompt

/-- The invariant the handler's state keeps between escalation steps, for
an initial step-1 response `r1`: the trace starts with the
`initial_web_search` entry, `output` is the extraction of the last
response, the last trace entry records the last response, an empty
accumulated refusal means every recorded response had an empty refusal,
every trace entry but the last has empty extracted output, and — once a
third entry exists — every entry but the last also has an empty extracted
refusal. -/
def PipeInv (r1 : JResponse) (st : PipeState) : Prop :=
  st.tr.head? = some ("initial_web_search", r1) ∧
  st.output = extractOutputText st.lastResponse ∧
  st.tr.getLast?.map Prod.snd = some st.lastResponse ∧
  (st.refusal = "" → ∀ e ∈ st.tr, extractRefusalText e.2 = "") ∧
  (∀ e ∈ st.tr.dropLast, extractOutputText e.2 = "") ∧
  (3 ≤ st.tr.length → ∀ e ∈ st.tr.dropLast, extractRefusalText e.2 = "")

/-- An upstream response with no fields at all: no id, no status, no
output, no choices. -/
def emptyResponse : JResponse :=
  ⟨none, none, .absent, none, none, none⟩

/-- A completed response whose single output item is a refusal: it yields
no output text and the refusal text `Non posso aiutarti.`. -/
def refusalResponse : JResponse :=
  ⟨none, some "completed", .absent,
   some [⟨some "message", none, .absent, some "Non posso aiutarti."⟩],
   none, none⟩

/-- An upstream that answers every escalation step with `emptyResponse`:
no step ever produces text or a refusal. -/
def emptyOracle : Oracle :=
  ⟨.ok emptyResponse, .ok emptyResponse, fun _ => .ok emptyResponse,
   .ok emptyResponse, fun _ => .ok emptyResponse⟩

/-! ### Helper lemmas on the scanners -/

theorem containsSub_nil (pat : List Char) :
    containsSub [] pat = startsWithL [] pat := by
  unfold containsSub
  split <;> simp_all

theorem containsSub_cons (c : Char) (l pat : List Char) :
    containsSub (c :: l) pat = (startsWithL (c :: l) pat || containsSub l pat) := by
  conv_lhs => unfold containsSub
  split <;> simp_all

theorem containsSub_tail_false {c : Char} {l pat : List Char}
    (h : containsSub (c :: l) pat = false) : containsSub l pat = false := by
  rw [containsSub_cons] at h
  exact (Bool.or_eq_false_iff.mp h).2

theorem startsWithL_false_of_containsSub_false {l pat : List Char}
    (h : containsSub l pat = false) : startsWithL l pat = false := by
  cases l with
  | nil => rw [containsSub_nil] at h; exact h
  | cons c rest =>
    rw [containsSub_cons] at h
    exact (Bool.or_eq_false_iff.mp h).1

theorem containsSub_append_right {l pat : List Char} (u : List Char)
    (h : containsSub l pat = true) : containsSub (u ++ l) pat = true := by
  induction u with
  | nil => simpa using h
  | cons c u ih =>
    rw [List.cons_append, containsSub_cons, ih]
    simp

theorem startsWithL_nil_pat (l : List Char) : startsWithL l [] = true := by
  cases l <;> rfl

theorem startsWithL_append (l v pat : List Char)
    (h : startsWithL l pat = true) : startsWithL (l ++ v) pat = true := by
  induction pat generalizing l with
  | nil => exact startsWithL_nil_pat _
  | cons p ps ih =>
    cases l with
    | nil => simp [startsWithL] at h
    | cons c rest =>
      unfold startsWithL at h ⊢
      rcases Bool.and_eq_true_iff.mp h with ⟨h1, h2⟩
      rw [List.cons_append]
      exact Bool.and_eq_true_iff.mpr ⟨h1, ih rest h2⟩

theorem containsSub_append_left_false {u v pat : List Char}
    (h : containsSub (u ++ v) pat = false) : containsSub u pat = false := by
  induction u with
  | nil =>
    rw [containsSub_nil]
    by_contra hn
    have hs : startsWithL [] pat = true := by
      cases hx : startsWithL [] pat
      · exact absurd hx hn
      · rfl
    have : startsWithL ([] ++ v) pat = true := startsWithL_append [] v pat hs
    have := startsWithL_false_of_containsSub_false h
    simp_all
  | cons c u ih =>
    rw [List.cons_append] at h
    rw [containsSub_cons]
    have h2 := containsSub_tail_false h
    rw [ih h2]
    have h1 := startsWithL_false_of_containsSub_false h
    by_contra hn
    have hs : startsWithL (c :: u) pat = true := by
      cases hx : startsWithL (c :: u) pat
      · simp [hx] at hn
      · rfl
    have := startsWithL_append (c :: u) v pat hs
    rw [List.cons_append] at this
    simp_all

theorem containsSub_suffix_false {u v pat : List Char}
    (h : containsSub (u ++ v) pat = false) : containsSub v pat = false := by
  cases hx : containsSub v pat
  · rfl
  · exact absurd (containsSub_append_right u hx) (by simp [h])

/-! ### Lemmas about `unifyEol` -/

theorem unifyEol_eq_self {l : List Char}
    (h : containsSub l ['\r', '\n'] = false) : unifyEol l = l := by
  induction l using unifyEol.induct with
  | case1 => rfl
  | case2 c => rfl
  | case3 c d rest hcd ih =>
    obtain ⟨hc, hd⟩ := hcd
    subst hc; subst hd
    have := startsWithL_false_of_containsSub_false h
    simp [startsWithL] at this
  | case4 c d rest hcd ih =>
    unfold unifyEol
    rw [if_neg hcd, ih (containsSub_tail_false h)]

theorem unifyEol_head (l : List Char) :
    (unifyEol l).head? = l.head? ∨
      ((unifyEol l).head? = some '\n' ∧ l.head? = some '\r') := by
  match l with
  | [] => left; rfl
  | [c] => left; rfl
  | c :: d :: rest =>
    by_cases hcd : c = '\r' ∧ d = '\n'
    · right
      unfold unifyEol
      rw [if_pos hcd]
      exact ⟨rfl, by simp [hcd.1]⟩
    · left
      unfold unifyEol
      rw [if_neg hcd]
      rfl

theorem unifyEol_no_crlf {l : List Char}
    (h : containsSub l ['\r', '\r', '\n'] = false) :
    containsSub (unifyEol l) ['\r', '\n'] = false := by
  induction l using unifyEol.induct with
  | case1 => rfl
  | case2 c =>
    show containsSub [c] _ = false
    rw [containsSub_cons, containsSub_nil]
    simp [startsWithL]
  | case3 c d rest hcd ih =>
    unfold unifyEol
    rw [if_pos hcd]
    have h' : containsSub rest ['\r', '\r', '\n'] = false :=
      containsSub_tail_false (containsSub_tail_false h)
    rw [containsSub_cons, ih h']
    simp [startsWithL]
  | case4 c d rest hcd ih =>
    unfold unifyEol
    rw [if_neg hcd]
    rw [containsSub_cons, ih (containsSub_tail_false h)]
    simp only [Bool.or_false]
    by_cases hc : c = '\r'
    · subst hc
      have hd : ¬ d = '\n' := fun hx => hcd ⟨rfl, hx⟩
      rcases unifyEol_head (d :: rest) with hh | ⟨hh, hdr⟩
      · cases hu : unifyEol (d :: rest) with
        | nil => simp [startsWithL]
        | cons e r3 =>
          rw [hu] at hh
          simp only [List.head?] at hh
          have he : e = d := by simpa using hh
          subst he
          simp only [startsWithL, Bool.and_eq_false_iff]
          right
          left
          simp only [decide_eq_false_iff_not]
          exact hd
      · -- d = '\r' and unifyEol (d :: rest) starts with '\n': then rest
        -- starts with '\n', so l starts with "\r\r\n", contradicting h.
        have hd' : d = '\r' := by simpa using hdr
        subst hd'
        cases rest with
        | nil => simp [unifyEol] at hh
        | cons e r3 =>
          by_cases he : e = '\n'
          · subst he
            have := startsWithL_false_of_containsSub_false h
            simp [startsWithL] at this
          · have hx : unifyEol ('\r' :: e :: r3) = '\r' :: unifyEol (e :: r3) := by
              conv_lhs => unfold unifyEol
              rw [if_neg (fun hcon => he hcon.2)]
            rw [hx] at hh
            simp at hh
    · cases hu : unifyEol (d :: rest) with
      | nil => simp [startsWithL, hc]
      | cons e r3 =>
        simp only [startsWithL, Bool.and_eq_false_iff]
        left
        simp only [decide_eq_false_iff_not]
        exact hc

/-! ### Lemmas about `collapseNl` -/

theorem collapseNlGo_head_high {l : List Char} {k : Nat} (hk : 2 ≤ k) :
    (collapseNlGo k l).head? ≠ some '\n' := by
  induction l generalizing k with
  | nil => simp [collapseNlGo]
  | cons c rest ih =>
    unfold collapseNlGo
    split_ifs with hc
    · exact ih (Nat.le_succ_of_le hk)
    · simp [List.head?, hc]

theorem collapseNlGo_one_no_nlnl (l : List Char) :
    startsWithL (collapseNlGo 1 l) ['\n', '\n'] = false := by
  cases l with
  | nil => rfl
  | cons c rest =>
    by_cases hc : c = '\n'
    · subst hc
      have hstep : collapseNlGo 1 ('\n' :: rest) = '\n' :: collapseNlGo 2 rest := rfl
      rw [hstep]
      have hhead := collapseNlGo_head_high (l := rest) (k := 2) (by omega)
      cases hu : collapseNlGo 2 rest with
      | nil => simp [startsWithL]
      | cons e r3 =>
        rw [hu] at hhead
        simp only [List.head?] at hhead
        simp only [startsWithL, Bool.and_eq_false_iff]
        right
        left
        simp only [decide_eq_false_iff_not]
        intro hx
        exact hhead (by rw [hx])
    · have hstep : collapseNlGo 1 (c :: rest) = c :: collapseNlGo 0 rest := by
        show (if c = '\n' then
            if 2 ≤ 1 then collapseNlGo 2 rest else '\n' :: collapseNlGo 2 rest
          else c :: collapseNlGo 0 rest) = c :: collapseNlGo 0 rest
        rw [if_neg hc]
      rw [hstep]
      simp [startsWithL, hc]

theorem collapseNlGo_no_triple (l : List Char) (k : Nat) :
    containsSub (collapseNlGo k l) ['\n', '\n', '\n'] = false := by
  induction l generalizing k with
  | nil => rfl
  | cons c rest ih =>
    unfold collapseNlGo
    split_ifs with hc hk
    · exact ih (k + 1)
    · rw [containsSub_cons, ih (k + 1)]
      simp only [Bool.or_false]
      match k, hk with
      | n + 2, hk => exact absurd (by omega) hk
      | 0, _ =>
        have h1 := collapseNlGo_one_no_nlnl rest
        simp only [startsWithL, Bool.and_eq_false_iff]
        right
        cases hu : collapseNlGo 1 rest with
        | nil => simp [startsWithL]
        | cons e r3 =>
          rw [hu] at h1
          simpa [startsWithL] using h1
      | 1, _ =>
        have hhead := collapseNlGo_head_high (l := rest) (k := 2) (by omega)
        cases hu : collapseNlGo 2 rest with
        | nil => simp [startsWithL]
        | cons e r3 =>
          rw [hu] at hhead
          simp only [List.head?] at hhead
          simp only [startsWithL, Bool.and_eq_false_iff]
          right
          left
          simp only [decide_eq_false_iff_not]
          intro hx
          exact hhead (by rw [hx])
    · rw [containsSub_cons, ih 0]
      simp [startsWithL, hc]

theorem collapseNlGo_head_zero (l : List Char) :
    (collapseNlGo 0 l).head? = l.head? := by
  cases l with
  | nil => rfl
  | cons c rest =>
    unfold collapseNlGo
    split_ifs with hc hk2
    · omega
    · simp [List.head?, hc]
    · rfl

theorem collapseNlGo_no_crlf {l : List Char} (k : Nat)
    (h : containsSub l ['\r', '\n'] = false) :
    containsSub (collapseNlGo k l) ['\r', '\n'] = false := by
  induction l generalizing k with
  | nil => rfl
  | cons c rest ih =>
    have hrest := containsSub_tail_false h
    unfold collapseNlGo
    split_ifs with hc hk
    · exact ih (k + 1) hrest
    · rw [containsSub_cons, ih (k + 1) hrest]
      simp [startsWithL, hc]
    · rw [containsSub_cons, ih 0 hrest]
      simp only [Bool.or_false]
      by_cases hr : c = '\r'
      · subst hr
        have h1 := startsWithL_false_of_containsSub_false h
        simp only [startsWithL, Bool.and_eq_false_iff] at h1
        rcases h1 with h1 | h1
        · simp at h1
        · have hh := collapseNlGo_head_zero rest
          cases hu : collapseNlGo 0 rest with
          | nil => simp [startsWithL]
          | cons e r3 =>
            rw [hu] at hh
            cases rest with
            | nil => simp at hh
            | cons d r2 =>
              simp only [List.head?] at hh
              have he : e = d := by simpa using hh
              subst he
              simp only [startsWithL, Bool.and_eq_false_iff] at h1 ⊢
              right
              rcases h1 with h1 | h1
              · left; exact h1
              · simp [startsWithL] at h1
      · simp [startsWithL, hr]

theorem collapseNlGo_eq_self {l : List Char} :
    ∀ k, containsSub l ['\n', '\n', '\n'] = false →
      (2 ≤ k → l.head? ≠ some '\n') →
      (k = 1 → startsWithL l ['\n', '\n'] = false) →
      collapseNlGo k l = l := by
  induction l with
  | nil => intro k _ _ _; rfl
  | cons c rest ih =>
    intro k h3 hhigh hone
    unfold collapseNlGo
    split_ifs with hc hk
    · subst hc
      exact absurd rfl (hhigh hk)
    · subst hc
      congr 1
      match k, hk with
      | n + 2, hk => exact absurd (by omega) hk
      | 0, _ =>
        apply ih 1 (containsSub_tail_false h3)
        · intro h2; omega
        · intro _
          have := startsWithL_false_of_containsSub_false h3
          simp only [startsWithL, Bool.and_eq_false_iff] at this
          rcases this with h | h
          · simp at h
          · exact h
      | 1, _ =>
        apply ih 2 (containsSub_tail_false h3)
        · intro _
          have h1 := hone rfl
          simp only [startsWithL, Bool.and_eq_false_iff] at h1
          rcases h1 with h | h
          · simp at h
          · cases rest with
            | nil => simp
            | cons d r2 =>
              simp only [startsWithL, Bool.and_eq_false_iff] at h
              rcases h with h | h
              · simp only [List.head?]
                intro hx
                have hd : d = '\n' := by simpa using hx
                simp_all
              · simp [startsWithL_nil_pat] at h
        · intro h; omega
    · congr 1
      apply ih 0 (containsSub_tail_false h3)
      · intro h2; omega
      · intro h1; omega

/-! ### Lemmas about `dropLeadWs` and `jsTrimL` -/

theorem dropLeadWs_suffix (l : List Char) : ∃ u, l = u ++ dropLeadWs l := by
  induction l with
  | nil => exact ⟨[], rfl⟩
  | cons c rest ih =>
    unfold dropLeadWs
    by_cases hc : isJsWs c
    · rcases ih with ⟨u, hu⟩
      exact ⟨c :: u, by simp [hc, ← hu]⟩
    · exact ⟨[], by simp [hc]⟩

theorem dropLeadWs_head {l : List Char} {c : Char}
    (h : (dropLeadWs l).head? = some c) : isJsWs c = false := by
  induction l with
  | nil => simp [dropLeadWs] at h
  | cons d rest ih =>
    unfold dropLeadWs at h
    by_cases hd : isJsWs d
    · rw [if_pos hd] at h; exact ih h
    · rw [if_neg hd] at h
      simp only [List.head?] at h
      have : d = c := by simpa using h
      subst this
      simpa using hd

theorem dropLeadWs_eq_self {l : List Char}
    (h : ∀ c, l.head? = some c → isJsWs c = false) : dropLeadWs l = l := by
  cases l with
  | nil => rfl
  | cons c rest =>
    unfold dropLeadWs
    rw [if_neg]
    simp [h c rfl]

theorem jsTrimL_contains_false {l pat : List Char}
    (h : containsSub l pat = false) : containsSub (jsTrimL l) pat = false := by
  unfold jsTrimL
  rcases dropLeadWs_suffix l with ⟨u, hu⟩
  have h1 : containsSub (dropLeadWs l) pat = false := by
    rw [hu] at h
    exact containsSub_suffix_false h
  rcases dropLeadWs_suffix (dropLeadWs l).reverse with ⟨v, hv⟩
  have h2 : dropLeadWs l = (dropLeadWs (dropLeadWs l).reverse).reverse ++ v.reverse := by
    have := congrArg List.reverse hv
    simpa using this
  rw [h2] at h1
  exact containsSub_append_left_false h1

theorem jsTrimL_idem (l : List Char) : jsTrimL (jsTrimL l) = jsTrimL l := by
  have hA : dropLeadWs (jsTrimL l) = jsTrimL l := by
    apply dropLeadWs_eq_self
    intro c hc
    unfold jsTrimL at hc
    rw [List.head?_reverse] at hc
    rcases dropLeadWs_suffix (dropLeadWs l).reverse with ⟨v, hv⟩
    have hne : dropLeadWs (dropLeadWs l).reverse ≠ [] := by
      intro hx
      rw [hx] at hc
      simp at hc
    have hlast : ((dropLeadWs l).reverse).getLast?
        = (dropLeadWs (dropLeadWs l).reverse).getLast? := by
      conv_lhs => rw [hv]
      exact List.getLast?_append_of_ne_nil _ hne
    rw [← hlast, List.getLast?_reverse] at hc
    exact dropLeadWs_head hc
  have hB : dropLeadWs (jsTrimL l).reverse = (jsTrimL l).reverse := by
    unfold jsTrimL
    rw [List.reverse_reverse]
    apply dropLeadWs_eq_self
    intro c hc
    exact dropLeadWs_head hc
  show (dropLeadWs (dropLeadWs (jsTrimL l)).reverse).reverse = jsTrimL l
  rw [hA, hB, List.reverse_reverse]

/-! ### Claim C9 -/

/-- Claim C9, counterexample.  `normalizePrompt` is not idempotent on every
string: on `"a\r\r\nb"` the CRLF replace turns the tail `"\r\n"` into `"\n"`,
leaving the preceding bare `"\r"` glued to the new `"\n"`, so a second
normalization pass rewrites the string again. -/
theorem C9_normalizePrompt_not_idempotent :
    normalizePrompt (normalizePrompt "a\r\r\nb") ≠ normalizePrompt "a\r\r\nb" := by
  decide

/-- Claim C9, amended: prompt normalization (line-ending unification,
collapsing runs of three or more newlines to two, trimming) is idempotent
for every string that does not contain the substring `"\r\r\n"`.  (The
unamended claim fails exactly because a `"\r\r\n"` occurrence lets the
single left-to-right CRLF replace pass create a fresh `"\r\n"`.) -/
theorem C9_normalizePrompt_idempotent (s : String)
    (h : containsSub s.data ['\r', '\r', '\n'] = false) :
    normalizePrompt (normalizePrompt s) = normalizePrompt s := by
  have h1 : containsSub (unifyEol s.data) ['\r', '\n'] = false := unifyEol_no_crlf h
  have h2 : containsSub (collapseNl (unifyEol s.data)) ['\r', '\n'] = false :=
    collapseNlGo_no_crlf 0 h1
  have h3 : containsSub (collapseNl (unifyEol s.data)) ['\n', '\n', '\n'] = false :=
    collapseNlGo_no_triple _ 0
  have h4 : containsSub (jsTrimL (collapseNl (unifyEol s.data))) ['\r', '\n'] = false :=
    jsTrimL_contains_false h2
  have h5 : containsSub (jsTrimL (collapseNl (unifyEol s.data))) ['\n', '\n', '\n'] = false :=
    jsTrimL_contains_false h3
  have h6 : collapseNlGo 0 (jsTrimL (collapseNl (unifyEol s.data)))
      = jsTrimL (collapseNl (unifyEol s.data)) :=
    collapseNlGo_eq_self 0 h5 (fun h2x => absurd h2x (by omega))
      (fun h1x => absurd h1x (by omega))
  show String.mk (jsTrimL (collapseNl (unifyEol (jsTrimL (collapseNl (unifyEol s.data))))))
      = String.mk (jsTrimL (collapseNl (unifyEol s.data)))
  rw [unifyEol_eq_self h4]
  show String.mk (jsTrimL (collapseNlGo 0 (jsTrimL (collapseNl (unifyEol s.data))))) = _
  rw [h6, jsTrimL_idem]

/-- Claim C9, witness for the amended theorem at a concrete input. -/
theorem C9_normalizePrompt_idempotent_witness :
    containsSub ("ciao\r\nmondo\n\n\n\n  fine ".data) ['\r', '\r', '\n'] = false ∧
    normalizePrompt (normalizePrompt "ciao\r\nmondo\n\n\n\n  fine ")
      = normalizePrompt "ciao\r\nmondo\n\n\n\n  fine " :=
  ⟨by decide, C9_normalizePrompt_idempotent _ (by decide)⟩

/-! ### Claim C7 -/

theorem joinLines_cons_of_ne_nil (s : String) (rest : List String) (h : rest ≠ []) :
    joinLines (s :: rest) = s ++ "\n" ++ joinLines rest := by
  cases rest with
  | nil => exact absurd rfl h
  | cons y ys => rfl

theorem joinLines_embeds (xs : List String) (c : String) (ys : List String) :
    ∃ pre post : List Char, (joinLines (xs ++ c :: ys)).data = pre ++ c.data ++ post := by
  induction xs with
  | nil =>
    cases ys with
    | nil => exact ⟨[], [], by simp [joinLines]⟩
    | cons y ys' =>
      refine ⟨[], ("\n" ++ joinLines (y :: ys')).data, ?_⟩
      rw [List.nil_append,
        joinLines_cons_of_ne_nil c (y :: ys') (by simp)]
      simp [String.data_append, List.append_assoc]
  | cons x xs' ih =>
    rcases ih with ⟨pre, post, hpp⟩
    have hne : xs' ++ c :: ys ≠ [] := by simp
    rw [List.cons_append, joinLines_cons_of_ne_nil x _ hne]
    refine ⟨(x ++ "\n").data ++ pre, post, ?_⟩
    rw [String.data_append, hpp]
    simp [String.data_append, List.append_assoc]

theorem embeds_trans {L : List Char} {A c : String}
    (h : ∃ pre post : List Char, L = pre ++ (A ++ c).data ++ post) :
    ∃ pre post : List Char, L = pre ++ c.data ++ post := by
  rcases h with ⟨pre, post, hpp⟩
  refine ⟨pre ++ A.data, post, ?_⟩
  rw [hpp, String.data_append]
  simp [List.append_assoc]

theorem buildLocalFallbackPrompt_embeds (p : String) :
    ∃ pre post : List Char,
      (buildLocalFallbackPrompt p).data = pre ++ (concisePromptOf p).data ++ post := by
  simp only [buildLocalFallbackPrompt]
  split_ifs
  · exact joinLines_embeds
      ["Agisci come nutrizionista educativo (non medico) e personal trainer della nutrizione.",
       "Obiettivo: aiutarmi a iniziare una dieta in modo sano, sostenibile e realistico.",
       "",
       "Richiesta di partenza:"] (concisePromptOf p) _
  · exact embeds_trans (joinLines_embeds
      ["Ruolo: Sei un growth marketer senior orientato ai risultati.",
       "Obiettivo: creare un piano marketing concreto, misurabile e sostenibile."]
      ("Richiesta utente: " ++ concisePromptOf p) _)
  · exact embeds_trans (joinLines_embeds
      ["Ruolo: Sei un software engineer senior pragmatico.",
       "Obiettivo: fornire una soluzione tecnica implementabile rapidamente."]
      ("Richiesta utente: " ++ concisePromptOf p) _)
  · exact embeds_trans (joinLines_embeds
      ["Ruolo: Sei un tutor esperto in metodo di studio.",
       "Obiettivo: costruire un piano di apprendimento realistico e progressivo."]
      ("Richiesta utente: " ++ concisePromptOf p) _)
  · exact embeds_trans (joinLines_embeds
      ["Ruolo: Sei un assistente esperto e pragmatico orientato all\x27azione.",
       "Obiettivo: Fornire una risposta utile, concreta e immediatamente applicabile."]
      ("Richiesta utente: " ++ concisePromptOf p) _)

/-- Claim C7, counterexample.  `buildLocalFallbackPrompt` does not embed the
user's original request verbatim: for `"dieta  sana"` (two spaces) the
template only contains the whitespace-collapsed form `"dieta sana"`, and the
original text occurs nowhere in the output. -/
theorem C7_buildLocalFallbackPrompt_not_verbatim :
    containsSub (buildLocalFallbackPrompt "dieta  sana").data "dieta  sana".data
      = false := by
  decide

/-- Claim C7, amended: `buildLocalFallbackPrompt` is a pure function that
lower-cases and whitespace-collapses the prompt, tests the four keyword sets
in the fixed priority order health, marketing, coding, study (first match
wins, generic template otherwise), selects one of the five fixed templates,
and embeds the *whitespace-collapsed, trimmed* request verbatim inside the
template (the raw request itself when it is already whitespace-normalized);
in particular on "Ho bisogno di una dieta per dimagrire" it selects the
health template and embeds that exact text. -/
theorem C7_buildLocalFallbackPrompt_spec (p : String) :
    (buildLocalFallbackPrompt p =
      if hasAnyKeyword (jsToLower (concisePromptOf p)) healthKeywords then
        healthTemplate (concisePromptOf p)
      else if hasAnyKeyword (jsToLower (concisePromptOf p)) marketingKeywords then
        marketingTemplate (concisePromptOf p)
      else if hasAnyKeyword (jsToLower (concisePromptOf p)) codingKeywords then
        codingTemplate (concisePromptOf p)
      else if hasAnyKeyword (jsToLower (concisePromptOf p)) studyKeywords then
        studyTemplate (concisePromptOf p)
      else genericTemplate (concisePromptOf p)) ∧
    (∃ pre post : List Char,
      (buildLocalFallbackPrompt p).data = pre ++ (concisePromptOf p).data ++ post) ∧
    buildLocalFallbackPrompt "Ho bisogno di una dieta per dimagrire"
      = healthTemplate "Ho bisogno di una dieta per dimagrire" ∧
    containsSub (buildLocalFallbackPrompt "Ho bisogno di una dieta per dimagrire").data
      "Ho bisogno di una dieta per dimagrire".data = true := by
  refine ⟨rfl, buildLocalFallbackPrompt_embeds p, by decide, by decide⟩

/-! ### Claim C4 -/

/-- Claim C4: `buildEmptyOutputDiagnosis` is a pure deterministic function of
only the first recorded attempt (later entries never affect the result), an
empty trace yields `missing_first_attempt_trace`, and on a non-empty trace
the root cause follows the ordered first-match decision table
has_output_text, has_refusal, incomplete_reason = max_output_tokens,
non-empty status other than completed, has_web_search_call,
output_count = 0, otherwise non-text output. -/
theorem C4_buildEmptyOutputDiagnosis_spec (e : DebugInfo) (rest : List DebugInfo) :
    buildEmptyOutputDiagnosis (e :: rest) = buildEmptyOutputDiagnosis [e] ∧
    (buildEmptyOutputDiagnosis []).root_cause = "missing_first_attempt_trace" ∧
    (buildEmptyOutputDiagnosis (e :: rest)).root_cause = specDiagnosisRootCause e := by
  refine ⟨rfl, rfl, ?_⟩
  unfold buildEmptyOutputDiagnosis specDiagnosisRootCause
  by_cases h1 : e.has_output_text <;>
    by_cases h2 : e.has_refusal <;>
      by_cases h3 : e.incomplete_reason = "max_output_tokens" <;>
        by_cases h4 : e.status ≠ "" ∧ e.status ≠ "completed" <;>
          by_cases h5 : e.has_web_search_call <;>
            by_cases h6 : e.output_count = 0 <;>
              simp [h1, h2, h3, h4, h5, h6]

/-! ### Claim C6 -/

/-- Claim C6: `extractOutputText` applies its four extraction strategies in
priority order (flat string `output_text`, array `output_text`, structured
output-item scan, legacy `choices`), and returns the empty string, never
failing, when no strategy yields text. -/
theorem C6_extractOutputText_priority (r : JResponse) :
    (extractOutputText r =
      if specFlatStrategy r ≠ "" then specFlatStrategy r
      else if specArrayStrategy r ≠ "" then specArrayStrategy r
      else if specStructuredStrategy r ≠ "" then specStructuredStrategy r
      else specChoicesStrategy r) ∧
    (specFlatStrategy r = "" → specArrayStrategy r = "" →
      specStructuredStrategy r = "" → specChoicesStrategy r = "" →
      extractOutputText r = "") := by
  have hmain : extractOutputText r =
      if specFlatStrategy r ≠ "" then specFlatStrategy r
      else if specArrayStrategy r ≠ "" then specArrayStrategy r
      else if specStructuredStrategy r ≠ "" then specStructuredStrategy r
      else specChoicesStrategy r := by
    unfold extractOutputText specFlatStrategy specArrayStrategy
      specStructuredStrategy specChoicesStrategy
    cases hout : r.output with
    | none => simp only [hout]; simp
    | some output => simp only [hout]
  refine ⟨hmain, fun h1 h2 h3 h4 => ?_⟩
  rw [hmain, if_neg (by simp [h1]), if_neg (by simp [h2]), if_neg (by simp [h3]), h4]

/-! ### Claim C3 -/

theorem rwtrCallsFrom_one (t0 delta : Nat) (label : String) (a : Nat) :
    rwtrCallsFrom t0 delta label a 1
      = [(t0 + a * delta, attemptLabelOf label a)] := rfl

theorem rwtrCallsFrom_succ (t0 delta : Nat) (label : String) (a len : Nat) :
    rwtrCallsFrom t0 delta label a (len + 1)
      = (t0 + a * delta, attemptLabelOf label a)
        :: rwtrCallsFrom t0 delta label (a + 1) len := rfl

theorem rwtrGo_calls {β : Type} (f : Nat → Nat → String → ProviderOutcome β)
    (label : String) (delta t0 : Nat) :
    ∀ budget a, ∃ len, 1 ≤ len ∧ len ≤ budget + 1 ∧
      (rwtrGo f label delta a budget (t0 + a * delta)).2
        = rwtrCallsFrom t0 delta label a len := by
  intro budget
  induction budget with
  | zero =>
    intro a
    refine ⟨1, le_refl 1, by omega, ?_⟩
    unfold rwtrGo
    rw [rwtrCallsFrom_one]
    cases hf : f a (t0 + a * delta) (attemptLabelOf label a) with
    | ok v => rfl
    | err isTO => cases isTO <;> rfl
  | succ b ih =>
    intro a
    unfold rwtrGo
    cases hf : f a (t0 + a * delta) (attemptLabelOf label a) with
    | ok v => exact ⟨1, le_refl 1, by omega, by rw [rwtrCallsFrom_one]⟩
    | err isTO =>
      cases isTO with
      | false => exact ⟨1, le_refl 1, by omega, by rw [rwtrCallsFrom_one]⟩
      | true =>
        rcases ih (a + 1) with ⟨len, h1, h2, hlog⟩
        refine ⟨len + 1, by omega, by omega, ?_⟩
        have harith : t0 + a * delta + delta = t0 + (a + 1) * delta := by ring
        rw [rwtrCallsFrom_succ]
        simp only []
        rw [harith, hlog]

theorem rwtrGo_all_timeout {β : Type} (f : Nat → Nat → String → ProviderOutcome β)
    (label : String) (delta t0 : Nat) :
    ∀ budget a,
      (∀ j, a ≤ j → j ≤ a + budget →
        f j (t0 + j * delta) (attemptLabelOf label j) = .err true) →
      rwtrGo f label delta a budget (t0 + a * delta)
        = (.timeoutExhausted (a + budget + 1), rwtrCallsFrom t0 delta label a (budget + 1)) := by
  intro budget
  induction budget with
  | zero =>
    intro a h
    unfold rwtrGo
    rw [h a le_rfl (by omega), rwtrCallsFrom_one]
  | succ b ih =>
    intro a h
    unfold rwtrGo
    rw [h a le_rfl (by omega)]
    have harith : t0 + a * delta + delta = t0 + (a + 1) * delta := by ring
    rw [harith, ih (a + 1) (fun j hj1 hj2 => h j (by omega) (by omega))]
    rw [rwtrCallsFrom_succ]
    simp only [Prod.mk.injEq, RWTResult.timeoutExhausted.injEq]
    exact ⟨by omega, rfl⟩

theorem rwtrGo_nontimeout {β : Type} (f : Nat → Nat → String → ProviderOutcome β)
    (label : String) (delta t0 : Nat) :
    ∀ budget a k, a ≤ k → k ≤ a + budget →
      (∀ j, a ≤ j → j < k →
        f j (t0 + j * delta) (attemptLabelOf label j) = .err true) →
      f k (t0 + k * delta) (attemptLabelOf label k) = .err false →
      rwtrGo f label delta a budget (t0 + a * delta)
        = (.nonTimeoutError k, rwtrCallsFrom t0 delta label a (k - a + 1)) := by
  intro budget
  induction budget with
  | zero =>
    intro a k h1 h2 hprev hk
    have hka : k = a := by omega
    subst hka
    unfold rwtrGo
    rw [hk]
    have hsub : k - k + 1 = 1 := by omega
    rw [hsub, rwtrCallsFrom_one]
  | succ b ih =>
    intro a k h1 h2 hprev hk
    by_cases hak : k = a
    · subst hak
      unfold rwtrGo
      rw [hk]
      have hsub : k - k + 1 = 1 := by omega
      rw [hsub, rwtrCallsFrom_one]
    · unfold rwtrGo
      rw [hprev a le_rfl (by omega)]
      have harith : t0 + a * delta + delta = t0 + (a + 1) * delta := by ring
      rw [harith,
        ih (a + 1) k (by omega) (by omega) (fun j hj1 hj2 => hprev j (by omega) hj2) hk]
      have hsub : k - a + 1 = (k - (a + 1) + 1) + 1 := by omega
      rw [hsub, rwtrCallsFrom_succ]
      rfl

/-- Claim C3: `requestWithTimeoutRetry` retries only timeouts — a
non-timeout failure at any attempt propagates immediately with no further
calls; attempt `K` uses timeout `firstTimeoutMs + K·delta` and, for `K ≥ 1`,
the label suffixed with `retry-K` (shown by the returned call log always
being `rwtrCallsFrom`); and when all `retries + 1` attempts time out the
raised failure carries `attempts = retries + 1` (3 for the default budget
of 2). -/
theorem C3_requestWithTimeoutRetry_spec {β : Type}
    (f : Nat → Nat → String → ProviderOutcome β)
    (retries delta firstTimeoutMs : Nat) (label : String) :
    (∃ len, 1 ≤ len ∧ len ≤ retries + 1 ∧
      (requestWithTimeoutRetry f retries delta firstTimeoutMs label).2
        = rwtrCallsFrom firstTimeoutMs delta label 0 len) ∧
    ((∀ j, j ≤ retries →
        f j (firstTimeoutMs + j * delta) (attemptLabelOf label j) = .err true) →
      requestWithTimeoutRetry f retries delta firstTimeoutMs label
        = (.timeoutExhausted (retries + 1),
           rwtrCallsFrom firstTimeoutMs delta label 0 (retries + 1))) ∧
    (∀ k, k ≤ retries →
      (∀ j, j < k →
        f j (firstTimeoutMs + j * delta) (attemptLabelOf label j) = .err true) →
      f k (firstTimeoutMs + k * delta) (attemptLabelOf label k) = .err false →
      requestWithTimeoutRetry f retries delta firstTimeoutMs label
        = (.nonTimeoutError k, rwtrCallsFrom firstTimeoutMs delta label 0 (k + 1))) := by
  have hz : firstTimeoutMs + 0 * delta = firstTimeoutMs := by ring
  refine ⟨?_, ?_, ?_⟩
  · have hgo := rwtrGo_calls f label delta firstTimeoutMs retries 0
    rw [hz] at hgo
    exact hgo
  · intro h
    have hgo := rwtrGo_all_timeout f label delta firstTimeoutMs retries 0
      (fun j hj1 hj2 => h j (by omega))
    rw [hz] at hgo
    simpa using hgo
  · intro k hk hprev hfk
    have hgo := rwtrGo_nontimeout f label delta firstTimeoutMs retries 0 k (by omega)
      (by omega) (fun j hj1 hj2 => hprev j hj2) hfk
    rw [hz] at hgo
    simpa using hgo

/-- Claim C3, witness: with the default budget of 2 retries, a provider that
always times out makes exactly 3 attempts, with timeouts 30000, 45000,
60000 ms, labels suffixed retry-1 and retry-2, and the raised failure
carries attempts = 3. -/
theorem C3_requestWithTimeoutRetry_witness :
    requestWithTimeoutRetry (fun _ _ _ => ProviderOutcome.err (β := Unit) true)
        2 15000 30000 "OpenAI+web_search"
      = (.timeoutExhausted 3,
         [(30000, "OpenAI+web_search"),
          (45000, "OpenAI+web_search retry-1"),
          (60000, "OpenAI+web_search retry-2")]) := by
  have h := (C3_requestWithTimeoutRetry_spec
    (fun _ _ _ => ProviderOutcome.err (β := Unit) true)
    2 15000 30000 "OpenAI+web_search").2.1 (fun j _ => rfl)
  rw [h]
  decide

/-! ### Claim C5 -/

theorem waitLoopF_step (fetch : Nat → String → JResponse) (label : String)
    (maxWait interval fuel : Nat) (r : JResponse) (waited k : Nat) :
    waitLoopF fetch label maxWait interval (fuel + 1) r waited k =
      if isPendingResponseStatus r.status then
        if idTruthy r = false then (.done r, k)
        else if maxWait ≤ waited then (.pollTimeout (label ++ " polling") maxWait, k)
        else waitLoopF fetch label maxWait interval fuel
          (fetch k (r.id.getD "")) (waited + interval) (k + 1)
      else (.done r, k) := by
  rfl

theorem ceil_fuel_ok (mw i : Nat) (hi : 1 ≤ i) :
    mw + i ≤ (mw / i + 2) * i := by
  have h1 := Nat.div_add_mod mw i
  have h2 : mw % i < i := Nat.mod_lt _ (by omega)
  nlinarith [h1, h2]

theorem ceil_mul_ge (mw i : Nat) (hi : 1 ≤ i) :
    mw ≤ (mw + i - 1) / i * i := by
  have h1 : (mw + i - 1) / i * i + (mw + i - 1) % i = mw + i - 1 :=
    Nat.div_add_mod' _ _
  have h2 : (mw + i - 1) % i < i := Nat.mod_lt _ (by omega)
  generalize hg : (mw + i - 1) / i * i = P at h1 ⊢
  omega

theorem ceil_step (d i : Nat) (hd : 1 ≤ d) (hi : 1 ≤ i) :
    (d + i - 1) / i = (d - i + i - 1) / i + 1 := by
  rcases le_or_lt d i with h | h
  · have h1 : d - i = 0 := by omega
    have h2 : (0 + i - 1) / i = 0 := Nat.div_eq_of_lt (by omega)
    have h3 : (d + i - 1) / i = 1 :=
      Nat.div_eq_of_lt_le (by omega) (by omega)
    rw [h1]
    omega
  · have h1 : d + i - 1 = (d - i + i - 1) + i := by omega
    rw [h1, Nat.add_div_right _ (by omega)]

theorem waitLoopF_no_fuelOut (fetch : Nat → String → JResponse) (label : String)
    (maxWait interval : Nat) :
    ∀ fuel waited k r, 1 ≤ fuel → maxWait + interval ≤ fuel * interval + waited →
      (waitLoopF fetch label maxWait interval fuel r waited k).1 ≠ .fuelOut := by
  intro fuel
  induction fuel with
  | zero => intro _ _ _ h1 _; omega
  | succ f ih =>
    intro waited k r _ hinv
    rw [waitLoopF_step]
    split_ifs with hp hid hmax
    · simp
    · simp
    · apply ih
      · by_contra hf0
        have hf : f = 0 := by omega
        subst hf
        simp at hinv
        omega
      · have : (f + 1) * interval = f * interval + interval := by ring
        omega
    · simp

theorem waitLoopF_count_le (fetch : Nat → String → JResponse) (label : String)
    (maxWait interval : Nat) :
    ∀ fuel waited k r n, maxWait ≤ waited + n * interval →
      (waitLoopF fetch label maxWait interval fuel r waited k).2 ≤ k + n := by
  intro fuel
  induction fuel with
  | zero => intro waited k r n _; simp [waitLoopF]
  | succ f ih =>
    intro waited k r n hn
    rw [waitLoopF_step]
    split_ifs with hp hid hmax
    · simp
    · simp
    · match n, hn with
      | 0, hn => omega
      | m + 1, hn =>
        have hmul : (m + 1) * interval = m * interval + interval := by ring
        have hrec := ih (waited + interval) (k + 1) (fetch k (r.id.getD "")) m (by omega)
        omega
    · simp

theorem waitLoopF_all_pending (fetch : Nat → String → JResponse) (label : String)
    (maxWait interval : Nat) (hi : 1 ≤ interval)
    (hall : ∀ k s, isPendingResponseStatus (fetch k s).status = true ∧
      idTruthy (fetch k s) = true) :
    ∀ fuel waited k r, 1 ≤ fuel → maxWait + interval ≤ fuel * interval + waited →
      isPendingResponseStatus r.status = true → idTruthy r = true →
      waitLoopF fetch label maxWait interval fuel r waited k
        = (.pollTimeout (label ++ " polling") maxWait,
           k + (maxWait - waited + interval - 1) / interval) := by
  intro fuel
  induction fuel with
  | zero => intro _ _ _ h1 _ _ _; omega
  | succ f ih =>
    intro waited k r _ hinv hp hid
    rw [waitLoopF_step, if_pos hp, if_neg (by simp [hid])]
    by_cases hmax : maxWait ≤ waited
    · rw [if_pos hmax]
      have hz : maxWait - waited = 0 := by omega
      have hdiv : (0 + interval - 1) / interval = 0 := Nat.div_eq_of_lt (by omega)
      rw [hz, hdiv]
      simp
    · rw [if_neg hmax]
      have hf1 : 1 ≤ f := by
        by_contra hf0
        have hf : f = 0 := by omega
        subst hf
        simp at hinv
        omega
      have hinv' : maxWait + interval ≤ f * interval + (waited + interval) := by
        have : (f + 1) * interval = f * interval + interval := by ring
        omega
      rw [ih (waited + interval) (k + 1) (fetch k (r.id.getD "")) hf1 hinv'
        (hall k _).1 (hall k _).2]
      have hd : 1 ≤ maxWait - waited := by omega
      have hstep := ceil_step (maxWait - waited) interval hd hi
      have harg : maxWait - (waited + interval) = maxWait - waited - interval := by omega
      rw [harg]
      simp only [Prod.mk.injEq, true_and]
      omega

theorem respSeqFrom_shift (fetch : Nat → String → JResponse) (k0 : Nat)
    (r : JResponse) :
    ∀ j, respSeqFrom fetch (k0 + 1) (fetch k0 (r.id.getD "")) j
      = respSeqFrom fetch k0 r (j + 1) := by
  intro j
  induction j with
  | zero => rfl
  | succ m ih =>
    show fetch (k0 + 1 + m) ((respSeqFrom fetch (k0 + 1) (fetch k0 (r.id.getD "")) m).id.getD "")
      = fetch (k0 + (m + 1)) ((respSeqFrom fetch k0 r (m + 1)).id.getD "")
    rw [ih]
    have : k0 + 1 + m = k0 + (m + 1) := by omega
    rw [this]

theorem waitLoopF_done (fetch : Nat → String → JResponse) (label : String)
    (maxWait interval : Nat) :
    ∀ n k0 r waited fuel, 1 ≤ fuel → maxWait + interval ≤ fuel * interval + waited →
      (∀ j, j < n → isPendingResponseStatus (respSeqFrom fetch k0 r j).status = true ∧
        idTruthy (respSeqFrom fetch k0 r j) = true ∧ waited + j * interval < maxWait) →
      (isPendingResponseStatus (respSeqFrom fetch k0 r n).status = false ∨
        idTruthy (respSeqFrom fetch k0 r n) = false) →
      waitLoopF fetch label maxWait interval fuel r waited k0
        = (.done (respSeqFrom fetch k0 r n), k0 + n) := by
  intro n
  induction n with
  | zero =>
    intro k0 r waited fuel hf hinv _ hstop
    match fuel, hf with
    | f + 1, _ =>
      rw [waitLoopF_step]
      rcases hstop with hstop | hstop
      · rw [if_neg (by simp [respSeqFrom] at hstop; simp [hstop])]
        simp [respSeqFrom]
      · simp only [respSeqFrom] at hstop
        by_cases hp : isPendingResponseStatus r.status
        · rw [if_pos hp, if_pos hstop]
          simp [respSeqFrom]
        · rw [if_neg hp]
          simp [respSeqFrom]
  | succ m ih =>
    intro k0 r waited fuel hf hinv hrun hstop
    match fuel, hf with
    | f + 1, _ =>
      obtain ⟨hp0, hid0, hw0⟩ := hrun 0 (by omega)
      simp only [respSeqFrom] at hp0 hid0
      rw [waitLoopF_step, if_pos hp0, if_neg (by simp [hid0]),
        if_neg (by omega : ¬ maxWait ≤ waited)]
      have hf1 : 1 ≤ f := by
        by_contra hf0
        have hfz : f = 0 := by omega
        subst hfz
        simp at hinv
        omega
      have hinv' : maxWait + interval ≤ f * interval + (waited + interval) := by
        have : (f + 1) * interval = f * interval + interval := by ring
        omega
      have hrun' : ∀ j, j < m →
          isPendingResponseStatus
            (respSeqFrom fetch (k0 + 1) (fetch k0 (r.id.getD "")) j).status = true ∧
          idTruthy (respSeqFrom fetch (k0 + 1) (fetch k0 (r.id.getD "")) j) = true ∧
          (waited + interval) + j * interval < maxWait := by
        intro j hj
        rw [respSeqFrom_shift]
        obtain ⟨h1, h2, h3⟩ := hrun (j + 1) (by omega)
        refine ⟨h1, h2, ?_⟩
        have : (j + 1) * interval = j * interval + interval := by ring
        omega
      have hstop' :
          isPendingResponseStatus
            (respSeqFrom fetch (k0 + 1) (fetch k0 (r.id.getD "")) m).status = false ∨
          idTruthy (respSeqFrom fetch (k0 + 1) (fetch k0 (r.id.getD "")) m) = false := by
        rw [respSeqFrom_shift]
        exact hstop
      rw [ih (k0 + 1) (fetch k0 (r.id.getD "")) (waited + interval) f hf1 hinv' hrun' hstop']
      rw [respSeqFrom_shift]
      simp only [Prod.mk.injEq, true_and]
      omega

/-- Claim C5: `waitForResponseCompletion` terminates for every initial
response and every sequence of re-fetched responses (the fuel sentinel is
unreachable); a non-pending initial response, or a pending one without an
id, is returned as-is with no re-fetch; while pending with an id it re-fetches
by id accumulating the fixed interval, returning the first response that is
non-pending or id-less; if every re-fetch stays pending with an id it raises
the polling timeout labelled `label polling` after exactly
ceil(maxWait/interval) re-fetches; and in general it performs at most
ceil(maxWait/interval) re-fetches. -/
theorem C5_waitForResponseCompletion_spec (fetch : Nat → String → JResponse)
    (label : String) (maxWait interval : Nat) (hi : 1 ≤ interval) (r0 : JResponse) :
    ((waitForResponseCompletion fetch label maxWait interval r0).1 ≠ .fuelOut) ∧
    (isPendingResponseStatus r0.status = false →
      waitForResponseCompletion fetch label maxWait interval r0 = (.done r0, 0)) ∧
    (isPendingResponseStatus r0.status = true → idTruthy r0 = false →
      waitForResponseCompletion fetch label maxWait interval r0 = (.done r0, 0)) ∧
    ((∀ k s, isPendingResponseStatus (fetch k s).status = true ∧
        idTruthy (fetch k s) = true) →
      isPendingResponseStatus r0.status = true → idTruthy r0 = true →
      waitForResponseCompletion fetch label maxWait interval r0
        = (.pollTimeout (label ++ " polling") maxWait,
           (maxWait + interval - 1) / interval)) ∧
    (∀ n, (∀ j, j < n → isPendingResponseStatus (respSeq fetch r0 j).status = true ∧
        idTruthy (respSeq fetch r0 j) = true ∧ j * interval < maxWait) →
      (isPendingResponseStatus (respSeq fetch r0 n).status = false ∨
        idTruthy (respSeq fetch r0 n) = false) →
      waitForResponseCompletion fetch label maxWait interval r0
        = (.done (respSeq fetch r0 n), n)) ∧
    ((waitForResponseCompletion fetch label maxWait interval r0).2
      ≤ (maxWait + interval - 1) / interval) := by
  have hfuel : 1 ≤ maxWait / interval + 2 := Nat.succ_le_succ (Nat.zero_le _)
  have hinv : maxWait + interval ≤ (maxWait / interval + 2) * interval + 0 := by
    simpa using ceil_fuel_ok maxWait interval hi
  refine ⟨?_, ?_, ?_, ?_, ?_, ?_⟩
  · exact waitLoopF_no_fuelOut fetch label maxWait interval _ 0 0 r0 hfuel hinv
  · intro hp
    have := waitLoopF_done fetch label maxWait interval 0 0 r0 0 _ hfuel hinv
      (by omega) (Or.inl (by simpa [respSeqFrom] using hp))
    simpa [waitForResponseCompletion, respSeqFrom] using this
  · intro hp hid
    have := waitLoopF_done fetch label maxWait interval 0 0 r0 0 _ hfuel hinv
      (by omega) (Or.inr (by simpa [respSeqFrom] using hid))
    simpa [waitForResponseCompletion, respSeqFrom] using this
  · intro hall hp hid
    have := waitLoopF_all_pending fetch label maxWait interval hi hall _ 0 0 r0
      hfuel hinv hp hid
    simpa [waitForResponseCompletion] using this
  · intro n hrun hstop
    have := waitLoopF_done fetch label maxWait interval n 0 r0 0 _ hfuel hinv
      (by intro j hj; simpa using hrun j hj) hstop
    simpa [waitForResponseCompletion, respSeq] using this
  · have hn : maxWait ≤ 0 + ((maxWait + interval - 1) / interval) * interval := by
      have := ceil_mul_ge maxWait interval hi
      omega
    have := waitLoopF_count_le fetch label maxWait interval
      (maxWait / interval + 2) 0 0 r0
      ((maxWait + interval - 1) / interval) hn
    simpa [waitForResponseCompletion] using this

/-- Claim C5, witness: with maxWait 3 and interval 2, an always-pending
re-fetch sequence yields the polling timeout after exactly 2 re-fetches,
and a non-pending initial response is returned as-is. -/
theorem C5_waitForResponseCompletion_witness :
    waitForResponseCompletion
        (fun _ _ => ⟨some "r2", some "queued", .absent, none, none, none⟩)
        "OpenAI+web_search" 3 2 ⟨some "r1", some "in_progress", .absent, none, none, none⟩
      = (.pollTimeout "OpenAI+web_search polling" 3, 2) ∧
    waitForResponseCompletion
        (fun _ _ => ⟨some "r2", some "queued", .absent, none, none, none⟩)
        "OpenAI+web_search" 3 2 ⟨some "r1", some "completed", .absent, none, none, none⟩
      = (.done ⟨some "r1", some "completed", .absent, none, none, none⟩, 0) := by
  constructor
  · have h := (C5_waitForResponseCompletion_spec
      (fun _ _ => ⟨some "r2", some "queued", .absent, none, none, none⟩)
      "OpenAI+web_search" 3 2 (by omega)
      ⟨some "r1", some "in_progress", .absent, none, none, none⟩).2.2.2.1
      (fun k s => by constructor <;> rfl) rfl rfl
    simpa using h
  · exact (C5_waitForResponseCompletion_spec
      (fun _ _ => ⟨some "r2", some "queued", .absent, none, none, none⟩)
      "OpenAI+web_search" 3 2 (by omega)
      ⟨some "r1", some "completed", .absent, none, none, none⟩).2.1 rfl

/-! ### Claims C10 and C2 -/

theorem runCatch_flag (prompt : String) (tr : List (String × JResponse))
    (e : UpErr) :
    (runCatch prompt tr e).usedLocalFallback = some true →
    (runCatch prompt tr e).recoveredFromEmptyOutput = some true := by
  cases e <;> simp only [runCatch, catchTimeout, catchUpstream] <;>
    split_ifs <;> simp

theorem finishPipeline_flag (prompt : String) (st : PipeState) :
    (finishPipeline prompt st).usedLocalFallback = some true →
    (finishPipeline prompt st).recoveredFromEmptyOutput = some true := by
  simp only [finishPipeline]
  split_ifs <;> simp

/-- Claim C10: every response with `usedLocalFallback = true` also carries
`recoveredFromEmptyOutput = true`, in every fallback path; and this holds
even when no upstream attempt ever produced text, as the concrete
all-empty-oracle run shows — `recoveredFromEmptyOutput = true` does not
imply any attempt actually recovered. -/
theorem C10_usedLocalFallback_implies_recovered (o : Oracle) (maxLen : Nat)
    (hasKey : Bool) (rawPrompt : Option String) :
    ((improveHandler o maxLen hasKey rawPrompt).usedLocalFallback = some true →
      (improveHandler o maxLen hasKey rawPrompt).recoveredFromEmptyOutput = some true) ∧
    ((improveHandler emptyOracle 6000 true (some "ciao")).usedLocalFallback = some true ∧
      (improveHandler emptyOracle 6000 true (some "ciao")).recoveredFromEmptyOutput = some true ∧
      ∀ e ∈ (improveHandler emptyOracle 6000 true (some "ciao")).trace,
        extractOutputText e.2 = "") := by
  constructor
  · simp only [improveHandler]
    split_ifs
    · intro h; simp at h
    · intro h; simp at h
    · intro h; simp at h
    · simp only [runPipeline]
      cases hs1 : o.step1 with
      | error e => dsimp only; exact runCatch_flag _ _ _
      | ok r1 =>
        dsimp only
        cases hs2 : stage2 o
            { lastResponse := r1, output := extractOutputText r1,
              refusal := extractRefusalText r1, recovered := false,
              usedNoWeb := false, tr := [("initial_web_search", r1)] } with
        | error p =>
          cases p with | mk e tr => dsimp only; exact runCatch_flag _ _ _
        | ok st2 =>
          dsimp only
          cases hs3 : stage3 o st2 with
          | error p =>
            cases p with | mk e tr => dsimp only; exact runCatch_flag _ _ _
          | ok st3 =>
            dsimp only
            cases hs4 : stage4 o st3 with
            | error p =>
              cases p with | mk e tr => dsimp only; exact runCatch_flag _ _ _
            | ok st4 =>
              dsimp only
              cases hs5 : stage5 o st4 with
              | error p =>
                cases p with | mk e tr => dsimp only; exact runCatch_flag _ _ _
              | ok st5 => dsimp only; exact finishPipeline_flag _ _
  · refine ⟨by decide, by decide, by decide⟩

/-- Claim C10, witness: the implication applied at the all-empty oracle. -/
theorem C10_usedLocalFallback_witness :
    (improveHandler emptyOracle 6000 true (some "ciao")).recoveredFromEmptyOutput
      = some true :=
  (C10_usedLocalFallback_implies_recovered emptyOracle 6000 true (some "ciao")).1
    (by decide)

theorem runCatch_status (prompt : String) (tr : List (String × JResponse))
    (e : UpErr) (hp : prompt ≠ "") :
    (runCatch prompt tr e).status = 200 ∨ (runCatch prompt tr e).status < 500 := by
  cases e with
  | timeoutE label tms att =>
    simp only [runCatch, catchTimeout]
    rw [if_pos hp]
    left
    rfl
  | upstreamE s m =>
    simp only [runCatch, catchTimeout, catchUpstream]
    by_cases h1 : isTimeoutError (.upstreamE s m)
    · rw [if_pos h1, if_pos hp]
      left
      rfl
    · rw [if_neg h1]
      by_cases h3 : prompt ≠ "" ∧ 500 ≤ (if s = 0 then 502 else s)
      · rw [if_pos h3]
        left
        rfl
      · rw [if_neg h3]
        right
        show (if s = 0 then 502 else s) < 500
        push_neg at h3
        exact h3 hp

theorem finishPipeline_status (prompt : String) (st : PipeState) :
    (finishPipeline prompt st).status = 200 ∨ (finishPipeline prompt st).status = 422 := by
  simp only [finishPipeline]
  split_ifs <;> simp

theorem improveHandler_validated (o : Oracle) (maxLen : Nat)
    (rawPrompt : Option String)
    (hval1 : normalizePrompt (rawPrompt.getD "") ≠ "")
    (hval2 : (normalizePrompt (rawPrompt.getD "")).length ≤ maxLen) :
    improveHandler o maxLen true rawPrompt
      = runPipeline o (normalizePrompt (rawPrompt.getD "")) := by
  simp only [improveHandler]
  rw [if_neg (by simp), if_neg hval1, if_neg (by omega)]

theorem runPipeline_status (o : Oracle) (prompt : String) (hp : prompt ≠ "") :
    (runPipeline o prompt).status = 200 ∨ (runPipeline o prompt).status < 500 := by
  simp only [runPipeline]
  cases o.step1 with
  | error e => exact runCatch_status _ _ _ hp
  | ok r1 =>
    dsimp only
    cases stage2 o
        { lastResponse := r1, output := extractOutputText r1,
          refusal := extractRefusalText r1, recovered := false,
          usedNoWeb := false, tr := [("initial_web_search", r1)] } with
    | error p => cases p with | mk e tr => exact runCatch_status _ _ _ hp
    | ok st2 =>
      dsimp only
      cases stage3 o st2 with
      | error p => cases p with | mk e tr => exact runCatch_status _ _ _ hp
      | ok st3 =>
        dsimp only
        cases stage4 o st3 with
        | error p => cases p with | mk e tr => exact runCatch_status _ _ _ hp
        | ok st4 =>
          dsimp only
          cases stage5 o st4 with
          | error p => cases p with | mk e tr => exact runCatch_status _ _ _ hp
          | ok st5 =>
            dsimp only
            rcases finishPipeline_status prompt st5 with h | h
            · left; exact h
            · right; omega

/-- Claim C2, counterexample.  A validated prompt does not guarantee a 200
or 422 response: an upstream 401 error is propagated as HTTP 401. -/
theorem C2_improveHandler_not_200_or_422 :
    (improveHandler
        ⟨.error (.upstreamE 401 "chiave non valida"), .ok emptyResponse,
         fun _ => .ok emptyResponse, .ok emptyResponse,
         fun _ => .ok emptyResponse⟩ 6000 true (some "ciao")).status = 401 ∧
    ¬ ((improveHandler
        ⟨.error (.upstreamE 401 "chiave non valida"), .ok emptyResponse,
         fun _ => .ok emptyResponse, .ok emptyResponse,
         fun _ => .ok emptyResponse⟩ 6000 true (some "ciao")).status = 200 ∨
       (improveHandler
        ⟨.error (.upstreamE 401 "chiave non valida"), .ok emptyResponse,
         fun _ => .ok emptyResponse, .ok emptyResponse,
         fun _ => .ok emptyResponse⟩ 6000 true (some "ciao")).status = 422) := by
  constructor
  · decide
  · decide

/-- Claim C2, amended: once the prompt passes validation (non-empty after
normalization, within the length cap) and the credential is configured,
`POST /api/improve` never returns 502 or 504 for any upstream behaviour:
it returns 200, 422, or — for a non-timeout upstream error whose
(defaulted) status is below 500 — that upstream status; timeouts and
upstream errors with status ≥ 500 are mapped to a 200 response whose
prompt field is the local fallback text. -/
theorem C2_improveHandler_no_gateway_errors (o : Oracle) (maxLen : Nat)
    (rawPrompt : Option String)
    (hval1 : normalizePrompt (rawPrompt.getD "") ≠ "")
    (hval2 : (normalizePrompt (rawPrompt.getD "")).length ≤ maxLen) :
    ((improveHandler o maxLen true rawPrompt).status = 200 ∨
      (improveHandler o maxLen true rawPrompt).status < 500) ∧
    (improveHandler o maxLen true rawPrompt).status ≠ 502 ∧
    (improveHandler o maxLen true rawPrompt).status ≠ 504 ∧
    (∀ lbl tms att, o.step1 = .error (.timeoutE lbl tms att) →
      (improveHandler o maxLen true rawPrompt).status = 200 ∧
      (improveHandler o maxLen true rawPrompt).promptField
        = some (buildLocalFallbackPrompt (normalizePrompt (rawPrompt.getD "")))) ∧
    (∀ s m, o.step1 = .error (.upstreamE s m) →
      500 ≤ (if s = 0 then 502 else s) →
      (improveHandler o maxLen true rawPrompt).status = 200 ∧
      (improveHandler o maxLen true rawPrompt).promptField
        = some (buildLocalFallbackPrompt (normalizePrompt (rawPrompt.getD "")))) := by
  rw [improveHandler_validated o maxLen rawPrompt hval1 hval2]
  have hstat := runPipeline_status o (normalizePrompt (rawPrompt.getD "")) hval1
  refine ⟨hstat, ?_, ?_, ?_, ?_⟩
  · rcases hstat with h | h <;> omega
  · rcases hstat with h | h <;> omega
  · intro lbl tms att hstep
    simp only [runPipeline]
    rw [hstep]
    dsimp only
    simp only [runCatch, catchTimeout]
    rw [if_pos hval1]
    exact ⟨rfl, rfl⟩
  · intro s m hstep hge
    simp only [runPipeline]
    rw [hstep]
    dsimp only
    simp only [runCatch]
    by_cases h1 : isTimeoutError (.upstreamE s m)
    · rw [if_pos h1]
      simp only [catchTimeout]
      rw [if_pos hval1]
      exact ⟨rfl, rfl⟩
    · rw [if_neg h1]
      simp only [catchUpstream]
      rw [if_pos ⟨hval1, hge⟩]
      exact ⟨rfl, rfl⟩

/-- Claim C2, witness: the amended theorem at the all-empty oracle and
prompt "ciao". -/
theorem C2_improveHandler_witness :
    normalizePrompt ((some "ciao").getD "") ≠ "" ∧
    (improveHandler emptyOracle 6000 true (some "ciao")).status ≠ 504 :=
  ⟨by decide,
   (C2_improveHandler_no_gateway_errors emptyOracle 6000 (some "ciao")
     (by decide) (by decide)).2.2.1⟩


/-! ### Claim C1 -/

theorem runCatch_trace (prompt : String) (tr : List (String × JResponse))
    (e : UpErr) : (runCatch prompt tr e).trace = tr := by
  cases e <;> simp only [runCatch, catchTimeout, catchUpstream] <;>
    split_ifs <;> rfl

theorem finishPipeline_trace (prompt : String) (st : PipeState) :
    (finishPipeline prompt st).trace = st.tr := by
  simp only [finishPipeline]
  split_ifs <;> rfl

theorem pipeinv_append (r1 : JResponse) (st : PipeState) (name : String)
    (rnew : JResponse) (rec unw : Bool)
    (hinv : PipeInv r1 st) (hout : st.output = "")
    (hcase : st.refusal = "" ∨ st.tr.length = 1) :
    PipeInv r1
      { lastResponse := rnew, output := extractOutputText rnew,
        refusal := if st.refusal = "" then extractRefusalText rnew else st.refusal,
        recovered := rec, usedNoWeb := unw,
        tr := st.tr ++ [(name, rnew)] } := by
  obtain ⟨h1, h2, h3, h4, h5, h6⟩ := hinv
  have hne : st.tr ≠ [] := by
    intro h
    rw [h] at h1
    exact Option.noConfusion h1
  have hlastmem : ∀ e ∈ st.tr, e ∈ st.tr.dropLast ∨ e = st.tr.getLast hne := by
    intro e he
    rw [← List.dropLast_append_getLast hne] at he
    rcases List.mem_append.mp he with h | h
    · exact Or.inl h
    · right
      simpa using h
  have hlastsnd : (st.tr.getLast hne).2 = st.lastResponse := by
    rw [List.getLast?_eq_getLast st.tr hne] at h3
    simpa using h3
  have hallout : ∀ e ∈ st.tr, extractOutputText e.2 = "" := by
    intro e he
    rcases hlastmem e he with h | h
    · exact h5 e h
    · rw [h, hlastsnd, ← h2]
      exact hout
  unfold PipeInv
  dsimp only
  refine ⟨?_, rfl, ?_, ?_, ?_, ?_⟩
  · cases htr : st.tr with
    | nil => exact absurd htr hne
    | cons x xs =>
      rw [htr] at h1
      simpa using h1
  · simp [List.getLast?_concat]
  · intro hrf e he
    by_cases hr0 : st.refusal = ""
    · rw [if_pos hr0] at hrf
      rcases List.mem_append.mp he with h | h
      · exact h4 hr0 e h
      · have hx : e = (name, rnew) := by simpa using h
        rw [hx]
        exact hrf
    · rw [if_neg hr0] at hrf
      exact absurd hrf hr0
  · intro e he
    rw [List.dropLast_concat] at he
    exact hallout e he
  · intro hlen e he
    rw [List.dropLast_concat] at he
    rcases hcase with hr0 | hl1
    · exact h4 hr0 e he
    · exact absurd hlen (by simp [hl1])

theorem st1_inv (r1 : JResponse) :
    PipeInv r1
      { lastResponse := r1, output := extractOutputText r1,
        refusal := extractRefusalText r1, recovered := false,
        usedNoWeb := false, tr := [("initial_web_search", r1)] } := by
  unfold PipeInv
  dsimp only
  refine ⟨rfl, rfl, by simp, ?_, ?_, ?_⟩
  · intro hrf e he
    have hx : e = ("initial_web_search", r1) := by simpa using he
    rw [hx]
    exact hrf
  · intro e he
    simp at he
  · intro h3 e he
    simp at h3

theorem stage2_inv (o : Oracle) (r1 : JResponse) (st st' : PipeState)
    (hinv : PipeInv r1 st)
    (hcase : st.refusal = "" ∨ st.tr.length = 1)
    (hok : stage2 o st = Except.ok st') : PipeInv r1 st' := by
  unfold stage2 at hok
  by_cases hc : st.output = ""
  · rw [if_pos hc] at hok
    cases hs : o.step2 with
    | error e =>
      rw [hs] at hok
      exact Except.noConfusion hok
    | ok rr =>
      rw [hs] at hok
      dsimp only at hok
      injection hok with h2
      rw [← h2]
      exact pipeinv_append r1 st _ rr _ _ hinv hc hcase
  · rw [if_neg hc] at hok
    injection hok with h2
    rw [← h2]
    exact hinv

theorem stage3_inv (o : Oracle) (r1 : JResponse) (st st' : PipeState)
    (hinv : PipeInv r1 st)
    (hok : stage3 o st = Except.ok st') : PipeInv r1 st' := by
  unfold stage3 at hok
  by_cases hc : st.output = "" ∧ st.refusal = "" ∧ idTruthy st.lastResponse = true
  · rw [if_pos hc] at hok
    cases hs : o.step3 (st.lastResponse.id.getD "") with
    | error e =>
      rw [hs] at hok
      exact Except.noConfusion hok
    | ok rr =>
      rw [hs] at hok
      dsimp only at hok
      injection hok with h2
      rw [← h2]
      exact pipeinv_append r1 st _ rr _ _ hinv hc.1 (Or.inl hc.2.1)
  · rw [if_neg hc] at hok
    injection hok with h2
    rw [← h2]
    exact hinv

theorem stage4_inv (o : Oracle) (r1 : JResponse) (st st' : PipeState)
    (hinv : PipeInv r1 st)
    (hok : stage4 o st = Except.ok st') : PipeInv r1 st' := by
  unfold stage4 at hok
  by_cases hc : st.output = "" ∧ st.refusal = ""
  · rw [if_pos hc] at hok
    cases hs : o.step4 with
    | error e =>
      rw [hs] at hok
      exact Except.noConfusion hok
    | ok rr =>
      rw [hs] at hok
      dsimp only at hok
      injection hok with h2
      rw [← h2]
      exact pipeinv_append r1 st _ rr _ _ hinv hc.1 (Or.inl hc.2)
  · rw [if_neg hc] at hok
    injection hok with h2
    rw [← h2]
    exact hinv

theorem stage5_inv (o : Oracle) (r1 : JResponse) (st st' : PipeState)
    (hinv : PipeInv r1 st)
    (hok : stage5 o st = Except.ok st') : PipeInv r1 st' := by
  unfold stage5 at hok
  by_cases hc : st.output = "" ∧ st.refusal = "" ∧ idTruthy st.lastResponse = true
  · rw [if_pos hc] at hok
    cases hs : o.step5 (st.lastResponse.id.getD "") with
    | error e =>
      rw [hs] at hok
      exact Except.noConfusion hok
    | ok rr =>
      rw [hs] at hok
      dsimp only at hok
      injection hok with h2
      rw [← h2]
      exact pipeinv_append r1 st _ rr _ _ hinv hc.1 (Or.inl hc.2.1)
  · rw [if_neg hc] at hok
    injection hok with h2
    rw [← h2]
    exact hinv

theorem stage2_error (o : Oracle) (st : PipeState) (e : UpErr)
    (tr : List (String × JResponse))
    (h : stage2 o st = Except.error (e, tr)) : tr = st.tr := by
  unfold stage2 at h
  by_cases hc : st.output = ""
  · rw [if_pos hc] at h
    cases hs : o.step2 with
    | error e2 =>
      rw [hs] at h
      dsimp only at h
      simp only [Except.error.injEq, Prod.mk.injEq] at h
      exact h.2.symm
    | ok rr =>
      rw [hs] at h
      dsimp only at h
      exact Except.noConfusion h
  · rw [if_neg hc] at h
    exact Except.noConfusion h

theorem stage3_error (o : Oracle) (st : PipeState) (e : UpErr)
    (tr : List (String × JResponse))
    (h : stage3 o st = Except.error (e, tr)) : tr = st.tr := by
  unfold stage3 at h
  by_cases hc : st.output = "" ∧ st.refusal = "" ∧ idTruthy st.lastResponse = true
  · rw [if_pos hc] at h
    cases hs : o.step3 (st.lastResponse.id.getD "") with
    | error e2 =>
      rw [hs] at h
      dsimp only at h
      simp only [Except.error.injEq, Prod.mk.injEq] at h
      exact h.2.symm
    | ok rr =>
      rw [hs] at h
      dsimp only at h
      exact Except.noConfusion h
  · rw [if_neg hc] at h
    exact Except.noConfusion h

theorem stage4_error (o : Oracle) (st : PipeState) (e : UpErr)
    (tr : List (String × JResponse))
    (h : stage4 o st = Except.error (e, tr)) : tr = st.tr := by
  unfold stage4 at h
  by_cases hc : st.output = "" ∧ st.refusal = ""
  · rw [if_pos hc] at h
    cases hs : o.step4 with
    | error e2 =>
      rw [hs] at h
      dsimp only at h
      simp only [Except.error.injEq, Prod.mk.injEq] at h
      exact h.2.symm
    | ok rr =>
      rw [hs] at h
      dsimp only at h
      exact Except.noConfusion h
  · rw [if_neg hc] at h
    exact Except.noConfusion h

theorem stage5_error (o : Oracle) (st : PipeState) (e : UpErr)
    (tr : List (String × JResponse))
    (h : stage5 o st = Except.error (e, tr)) : tr = st.tr := by
  unfold stage5 at h
  by_cases hc : st.output = "" ∧ st.refusal = "" ∧ idTruthy st.lastResponse = true
  · rw [if_pos hc] at h
    cases hs : o.step5 (st.lastResponse.id.getD "") with
    | error e2 =>
      rw [hs] at h
      dsimp only at h
      simp only [Except.error.injEq, Prod.mk.injEq] at h
      exact h.2.symm
    | ok rr =>
      rw [hs] at h
      dsimp only at h
      exact Except.noConfusion h
  · rw [if_neg hc] at h
    exact Except.noConfusion h

theorem runPipeline_trace_inv (o : Oracle) (prompt : String) :
    (runPipeline o prompt).trace = [] ∨
    ∃ r1 st, o.step1 = Except.ok r1 ∧ PipeInv r1 st ∧
      (runPipeline o prompt).trace = st.tr := by
  unfold runPipeline
  cases h1 : o.step1 with
  | error e =>
    dsimp only
    left
    exact runCatch_trace prompt [] e
  | ok r1 =>
    dsimp only
    right
    have hinv1 := st1_inv r1
    cases hs2 : stage2 o
        { lastResponse := r1, output := extractOutputText r1,
          refusal := extractRefusalText r1, recovered := false,
          usedNoWeb := false, tr := [("initial_web_search", r1)] } with
    | error p =>
      cases p with
      | mk e tr =>
        dsimp only
        refine ⟨r1, _, rfl, hinv1, ?_⟩
        rw [runCatch_trace]
        exact stage2_error o _ e tr hs2
    | ok st2 =>
      dsimp only
      have hinv2 := stage2_inv o r1 _ st2 hinv1 (Or.inr rfl) hs2
      cases hs3 : stage3 o st2 with
      | error p =>
        cases p with
        | mk e tr =>
          dsimp only
          refine ⟨r1, st2, rfl, hinv2, ?_⟩
          rw [runCatch_trace]
          exact stage3_error o st2 e tr hs3
      | ok st3 =>
        dsimp only
        have hinv3 := stage3_inv o r1 st2 st3 hinv2 hs3
        cases hs4 : stage4 o st3 with
        | error p =>
          cases p with
          | mk e tr =>
            dsimp only
            refine ⟨r1, st3, rfl, hinv3, ?_⟩
            rw [runCatch_trace]
            exact stage4_error o st3 e tr hs4
        | ok st4 =>
          dsimp only
          have hinv4 := stage4_inv o r1 st3 st4 hinv3 hs4
          cases hs5 : stage5 o st4 with
          | error p =>
            cases p with
            | mk e tr =>
              dsimp only
              refine ⟨r1, st4, rfl, hinv4, ?_⟩
              rw [runCatch_trace]
              exact stage5_error o st4 e tr hs5
          | ok st5 =>
            dsimp only
            have hinv5 := stage5_inv o r1 st4 st5 hinv4 hs5
            refine ⟨r1, st5, rfl, hinv5, ?_⟩
            exact finishPipeline_trace prompt st5

theorem stages_after_refusal (o : Oracle) (st : PipeState)
    (hr : st.refusal ≠ "") :
    stage3 o st = Except.ok st ∧ stage4 o st = Except.ok st ∧
      stage5 o st = Except.ok st := by
  refine ⟨?_, ?_, ?_⟩
  · unfold stage3
    rw [if_neg (fun hc => hr hc.2.1)]
  · unfold stage4
    rw [if_neg (fun hc => hr hc.2)]
  · unfold stage5
    rw [if_neg (fun hc => hr hc.2.1)]

/-- Claim C1, counterexample.  A non-empty extracted refusal at step 1 does
not prevent step 2: since the step-2 trigger at `server.js` line 132 tests
only `!output`, the trace of a run whose first response is a pure refusal
still contains the `retry_web_search_direct_text` entry recorded after the
entry whose extracted refusal was non-empty. -/
theorem C1_step2_runs_after_refusal :
    extractRefusalText refusalResponse ≠ "" ∧
    extractOutputText refusalResponse = "" ∧
    (improveHandler
        ⟨Except.ok refusalResponse, Except.ok emptyResponse,
         fun _ => Except.ok emptyResponse, Except.ok emptyResponse,
         fun _ => Except.ok emptyResponse⟩
        6000 true (some "ciao")).trace
      = [("initial_web_search", refusalResponse),
         ("retry_web_search_direct_text", emptyResponse)] :=
  ⟨by decide, by decide, by decide⟩

/-- Claim C1, amended: for every validated request, the pipeline advances
past a step only when that step's extracted output text is empty — every
trace entry except the last has empty extracted output — and, from step 2
on, only when the extracted refusal is also empty: whenever the trace has
at least three entries, every entry except the last also has an empty
extracted refusal.  A non-empty refusal at step 1 does not stop step 2:
when step 1 yields empty output and a non-empty refusal, step 2 still
runs, the trace is exactly the two entries `initial_web_search` and
`retry_web_search_direct_text`, and the pipeline then terminates — with a
422 carrying the step-1 refusal when step 2 also yields no output, and
with a 200 carrying step 2's output otherwise. -/
theorem C1_escalation_trace (o : Oracle) (maxLen : Nat)
    (rawPrompt : Option String)
    (hval1 : normalizePrompt (rawPrompt.getD "") ≠ "")
    (hval2 : (normalizePrompt (rawPrompt.getD "")).length ≤ maxLen) :
    (∀ e ∈ (improveHandler o maxLen true rawPrompt).trace.dropLast,
        extractOutputText e.2 = "") ∧
    (3 ≤ (improveHandler o maxLen true rawPrompt).trace.length →
      ∀ e ∈ (improveHandler o maxLen true rawPrompt).trace.dropLast,
        extractRefusalText e.2 = "") ∧
    (∀ r1 r2, o.step1 = Except.ok r1 → o.step2 = Except.ok r2 →
      extractOutputText r1 = "" → extractRefusalText r1 ≠ "" →
      (improveHandler o maxLen true rawPrompt).trace
        = [("initial_web_search", r1), ("retry_web_search_direct_text", r2)] ∧
      (extractOutputText r2 = "" →
        (improveHandler o maxLen true rawPrompt).status = 422 ∧
        (improveHandler o maxLen true rawPrompt).errorField
          = some (extractRefusalText r1)) ∧
      (extractOutputText r2 ≠ "" →
        (improveHandler o maxLen true rawPrompt).status = 200 ∧
        (improveHandler o maxLen true rawPrompt).promptField
          = some (extractOutputText r2))) := by
  have hiv := improveHandler_validated o maxLen rawPrompt hval1 hval2
  refine ⟨?_, ?_, ?_⟩
  · rw [hiv]
    rcases runPipeline_trace_inv o (normalizePrompt (rawPrompt.getD ""))
      with h | ⟨r1, st, h1, hinv, htr⟩
    · rw [h]
      intro e he
      simp at he
    · rw [htr]
      obtain ⟨-, -, -, -, h5, -⟩ := hinv
      exact h5
  · rw [hiv]
    rcases runPipeline_trace_inv o (normalizePrompt (rawPrompt.getD ""))
      with h | ⟨r1, st, h1, hinv, htr⟩
    · rw [h]
      intro h3
      simp at h3
    · rw [htr]
      obtain ⟨-, -, -, -, -, h6⟩ := hinv
      exact h6
  · intro r1 r2 h1 h2 ho1 hr1
    have key : improveHandler o maxLen true rawPrompt
        = finishPipeline (normalizePrompt (rawPrompt.getD ""))
          { lastResponse := r2, output := extractOutputText r2,
            refusal := extractRefusalText r1,
            recovered := (extractOutputText r2 != ""),
            usedNoWeb := false,
            tr := [("initial_web_search", r1),
                   ("retry_web_search_direct_text", r2)] } := by
      rw [hiv]
      unfold runPipeline
      rw [h1]
      dsimp only
      have e2 : stage2 o
          { lastResponse := r1, output := extractOutputText r1,
            refusal := extractRefusalText r1, recovered := false,
            usedNoWeb := false, tr := [("initial_web_search", r1)] }
          = Except.ok
          { lastResponse := r2, output := extractOutputText r2,
            refusal := extractRefusalText r1,
            recovered := (extractOutputText r2 != ""),
            usedNoWeb := false,
            tr := [("initial_web_search", r1),
                   ("retry_web_search_direct_text", r2)] } := by
        unfold stage2
        dsimp only
        rw [if_pos ho1, h2]
        dsimp only
        rw [if_neg hr1]
        rfl
      rw [e2]
      dsimp only
      obtain ⟨e3, e4, e5⟩ := stages_after_refusal o
        { lastResponse := r2, output := extractOutputText r2,
          refusal := extractRefusalText r1,
          recovered := (extractOutputText r2 != ""),
          usedNoWeb := false,
          tr := [("initial_web_search", r1),
                 ("retry_web_search_direct_text", r2)] } hr1
      rw [e3]
      dsimp only
      rw [e4]
      dsimp only
      rw [e5]
    refine ⟨?_, ?_, ?_⟩
    · rw [key, finishPipeline_trace]
    · intro ho2
      rw [key]
      unfold finishPipeline
      dsimp only
      rw [if_pos ho2, if_pos hr1]
      exact ⟨rfl, rfl⟩
    · intro ho2
      rw [key]
      unfold finishPipeline
      dsimp only
      rw [if_neg ho2]
      exact ⟨rfl, rfl⟩

/-- Claim C1, witness for the amended theorem: a concrete run whose first
response is a pure refusal and whose second yields no output ends as a 422. -/
theorem C1_escalation_trace_witness :
    (improveHandler
        ⟨Except.ok refusalResponse, Except.ok emptyResponse,
         fun _ => Except.ok emptyResponse, Except.ok emptyResponse,
         fun _ => Except.ok emptyResponse⟩
        6000 true (some "ciao")).status = 422 :=
  (((C1_escalation_trace
      ⟨Except.ok refusalResponse, Except.ok emptyResponse,
       fun _ => Except.ok emptyResponse, Except.ok emptyResponse,
       fun _ => Except.ok emptyResponse⟩
      6000 (some "ciao") (by decide) (by decide)).2.2
    refusalResponse emptyResponse rfl rfl (by decide) (by decide)).2.1
    (by decide)).1

/-! ### Claim C8: redaction -/

theorem isKeyChar_star : isKeyChar '*' = false := by decide

theorem isKeyChar_s : isKeyChar 's' = true := by decide

theorem isKeyChar_k : isKeyChar 'k' = true := by decide

theorem isKeyChar_dash : isKeyChar '-' = true := by decide

theorem startsWithL_decompose {X : List Char} {p : Char} {ps : List Char}
    (h : startsWithL X (p :: ps) = true) :
    ∃ t, X = p :: t ∧ startsWithL t ps = true := by
  cases X with
  | nil => simp [startsWithL] at h
  | cons c t =>
    simp [startsWithL] at h
    exact ⟨t, by rw [h.1], h.2⟩

theorem takeWhile_length_append (p : Char → Bool) (A B : List Char) :
    (A.takeWhile p).length ≤ ((A ++ B).takeWhile p).length := by
  induction A with
  | nil => simp
  | cons a A ih =>
    by_cases h : p a
    · simpa [List.takeWhile_cons, h] using ih
    · simp [List.takeWhile_cons, h]

theorem takeWhile_append_stop (p : Char → Bool) (A : List Char) (b : Char)
    (B : List Char) (hpb : p b = false) :
    (A ++ b :: B).takeWhile p = A.takeWhile p := by
  induction A with
  | nil => simp [List.takeWhile_cons, hpb]
  | cons a A ih =>
    by_cases h : p a
    · simp [List.takeWhile_cons, h, ih]
    · simp [List.takeWhile_cons, h]

theorem takeWhile_append_internal (p : Char → Bool) (A B : List Char)
    (h : ∃ x ∈ A, p x = false) :
    (A ++ B).takeWhile p = A.takeWhile p := by
  induction A with
  | nil => simp at h
  | cons a A ih =>
    by_cases hpa : p a
    · obtain ⟨x, hx, hpx⟩ := h
      rcases List.mem_cons.mp hx with rfl | hx2
      · rw [hpa] at hpx
        exact absurd hpx (by simp)
      · simp [List.takeWhile_cons, hpa, ih ⟨x, hx2, hpx⟩]
    · simp [List.takeWhile_cons, hpa]

theorem startsWithL_append_of_le (pat A : List Char) (B : List Char)
    (h : pat.length ≤ A.length) :
    startsWithL (A ++ B) pat = startsWithL A pat := by
  induction pat generalizing A with
  | nil =>
    have hh : ∀ L : List Char, startsWithL L [] = true := fun L => by
      cases L <;> rfl
    rw [hh, hh]
  | cons p ps ih =>
    cases A with
    | nil => simp at h
    | cons a A2 =>
      simp only [List.cons_append, startsWithL, List.append_eq]
      rw [ih A2 (by simpa using h)]

theorem hasSkSecret_append_false (A B : List Char) :
    hasSkSecret (A ++ B) = false ↔
      (∀ j < A.length, skAt (A.drop j ++ B) = false) ∧
        hasSkSecret B = false := by
  induction A with
  | nil => simp
  | cons a A ih =>
    rw [List.cons_append,
      show hasSkSecret (a :: (A ++ B)) =
        (skAt (a :: (A ++ B)) || hasSkSecret (A ++ B)) from rfl,
      Bool.or_eq_false_iff, ih]
    constructor
    · rintro ⟨h0, hA, hB⟩
      refine ⟨?_, hB⟩
      intro j hj
      cases j with
      | zero => simpa using h0
      | succ j => simpa using hA j (by simp at hj; omega)
    · rintro ⟨hall, hB⟩
      refine ⟨by simpa using hall 0 (by simp), ?_, hB⟩
      intro j hj
      simpa using hall (j + 1) (by simp; omega)

theorem p2Clean_append (A B : List Char) :
    p2Clean (A ++ B) = true ↔
      (∀ j < A.length, p2CleanAt (A.drop j ++ B) = true) ∧
        p2Clean B = true := by
  induction A with
  | nil => simp
  | cons a A ih =>
    rw [List.cons_append,
      show p2Clean (a :: (A ++ B)) =
        (p2CleanAt (a :: (A ++ B)) && p2Clean (A ++ B)) from rfl,
      Bool.and_eq_true, ih]
    constructor
    · rintro ⟨h0, hA, hB⟩
      refine ⟨?_, hB⟩
      intro j hj
      cases j with
      | zero => simpa using h0
      | succ j => simpa using hA j (by simp at hj; omega)
    · rintro ⟨hall, hB⟩
      refine ⟨by simpa using hall 0 (by simp), ?_, hB⟩
      intro j hj
      simpa using hall (j + 1) (by simp; omega)

theorem skRepl_clean (T : List Char) :
    hasSkSecret ("sk-***REDACTED***".data ++ T) = hasSkSecret T := by
  show hasSkSecret
      ('s' :: 'k' :: '-' :: '*' :: '*' :: '*' :: 'R' :: 'E' :: 'D' :: 'A' ::
        'C' :: 'T' :: 'E' :: 'D' :: '*' :: '*' :: '*' :: T) = hasSkSecret T
  simp [hasSkSecret, skAt, startsWithL, List.takeWhile_cons, isKeyChar_star]

theorem redTok_sk_clean (T : List Char) :
    hasSkSecret ("***REDACTED***".data ++ T) = hasSkSecret T := by
  show hasSkSecret
      ('*' :: '*' :: '*' :: 'R' :: 'E' :: 'D' :: 'A' :: 'C' :: 'T' :: 'E' ::
        'D' :: '*' :: '*' :: '*' :: T) = hasSkSecret T
  simp [hasSkSecret, skAt, startsWithL]

theorem skAt_transfer (S X Z : List Char)
    (hX : ∀ c, X.head? = some c → isKeyChar c = false)
    (h : skAt (S ++ X) = true) : skAt (S ++ Z) = true := by
  match S with
  | [] =>
    exfalso
    simp only [List.nil_append] at h
    simp [skAt] at h
    obtain ⟨t, ht, h2⟩ := startsWithL_decompose h.1
    rw [ht] at hX
    exact absurd (hX 's' rfl) (by decide)
  | [a] =>
    exfalso
    simp [skAt, startsWithL] at h
    obtain ⟨t, ht, h2⟩ := startsWithL_decompose h.1.2
    rw [ht] at hX
    exact absurd (hX 'k' rfl) (by decide)
  | [a, b] =>
    exfalso
    simp [skAt, startsWithL] at h
    obtain ⟨t, ht, h2⟩ := startsWithL_decompose h.1.2.2
    rw [ht] at hX
    exact absurd (hX '-' rfl) (by decide)
  | a :: b :: c :: S3 =>
    simp [skAt, startsWithL] at h ⊢
    obtain ⟨⟨ha, hb, hc⟩, hlen⟩ := h
    refine ⟨⟨ha, hb, hc⟩, ?_⟩
    have hXside : ((S3 ++ X).takeWhile isKeyChar).length
        = (S3.takeWhile isKeyChar).length := by
      cases X with
      | nil => simp
      | cons x X1 => rw [takeWhile_append_stop _ _ _ _ (hX x rfl)]
    have := takeWhile_length_append isKeyChar S3 Z
    omega

theorem redactSkGo_clean (fuel : Nat) (l : List Char) :
    l.length ≤ fuel →
      hasSkSecret (redactSkGo fuel l) = false ∧
      ((redactSkGo fuel l).takeWhile isKeyChar).length
        ≤ (l.takeWhile isKeyChar).length ∧
      (∀ pat : List Char, (∀ x ∈ pat, x ≠ 's') →
        startsWithL (redactSkGo fuel l) pat = true →
        startsWithL l pat = true) := by
  induction fuel, l using redactSkGo.induct with
  | case1 l =>
    intro hl
    obtain rfl : l = [] := List.eq_nil_of_length_eq_zero (Nat.le_zero.mp hl)
    exact ⟨rfl, Nat.le_refl _, fun pat _ hq => hq⟩
  | case2 fuel rest h ih =>
    intro hl
    have hx : redactSkGo (fuel + 1) ('s' :: 'k' :: '-' :: rest)
        = "sk-***REDACTED***".data ++ redactSkGo fuel (rest.dropWhile isKeyChar) := by
      rw [redactSkGo, if_pos h]
    have hlen : (rest.dropWhile isKeyChar).length ≤ fuel := by
      have h2 := (List.dropWhile_sublist (p := isKeyChar) (l := rest)).length_le
      simp at hl
      omega
    obtain ⟨ih1, ih2, ih3⟩ := ih hlen
    rw [hx]
    refine ⟨?_, ?_, ?_⟩
    · rw [skRepl_clean]
      exact ih1
    · have hL : (("sk-***REDACTED***".data
          ++ redactSkGo fuel (rest.dropWhile isKeyChar)).takeWhile isKeyChar).length
          = 3 := by
        show ((('s' :: 'k' :: '-' :: '*' :: '*' :: '*' :: 'R' :: 'E' :: 'D' ::
          'A' :: 'C' :: 'T' :: 'E' :: 'D' :: '*' :: '*' :: '*' ::
          redactSkGo fuel (rest.dropWhile isKeyChar))).takeWhile isKeyChar).length = 3
        simp [List.takeWhile_cons, isKeyChar_s, isKeyChar_k, isKeyChar_dash,
          isKeyChar_star]
      have hR : (('s' :: 'k' :: '-' :: rest).takeWhile isKeyChar).length
          = 3 + (rest.takeWhile isKeyChar).length := by
        simp [List.takeWhile_cons, isKeyChar_s, isKeyChar_k, isKeyChar_dash]
        omega
      rw [hL, hR]
      omega
    · intro pat hpat hsw
      cases pat with
      | nil => cases rest <;> rfl
      | cons p ps =>
        exfalso
        rw [show ("sk-***REDACTED***".data
            ++ redactSkGo fuel (rest.dropWhile isKeyChar))
            = 's' :: ("k-***REDACTED***".data
              ++ redactSkGo fuel (rest.dropWhile isKeyChar)) from rfl] at hsw
        simp [startsWithL] at hsw
        exact hpat p (List.mem_cons_self p ps) hsw.1.symm
  | case3 fuel rest h ih =>
    intro hl
    have hx : redactSkGo (fuel + 1) ('s' :: 'k' :: '-' :: rest)
        = 's' :: redactSkGo fuel ('k' :: '-' :: rest) := by
      rw [redactSkGo, if_neg h]
    have hlen : ('k' :: '-' :: rest).length ≤ fuel := by
      simp at hl ⊢
      omega
    obtain ⟨ih1, ih2, ih3⟩ := ih hlen
    rw [hx]
    refine ⟨?_, ?_, ?_⟩
    · rw [show hasSkSecret ('s' :: redactSkGo fuel ('k' :: '-' :: rest))
          = (skAt ('s' :: redactSkGo fuel ('k' :: '-' :: rest))
            || hasSkSecret (redactSkGo fuel ('k' :: '-' :: rest))) from rfl,
        ih1, Bool.or_false]
      by_contra hq
      rw [Bool.not_eq_false] at hq
      simp [skAt, startsWithL] at hq
      obtain ⟨hO2, hlen12⟩ := hq
      obtain ⟨t, ht, ht2⟩ := startsWithL_decompose hO2
      obtain ⟨t2, ht3, -⟩ := startsWithL_decompose ht2
      have hOsh : redactSkGo fuel ('k' :: '-' :: rest) = 'k' :: '-' :: t2 := by
        rw [ht, ht3]
      have htwO : ((redactSkGo fuel ('k' :: '-' :: rest)).takeWhile isKeyChar).length
          = 2 + (t2.takeWhile isKeyChar).length := by
        rw [hOsh]
        simp [List.takeWhile_cons, isKeyChar_k, isKeyChar_dash]
        omega
      have hdrop2 : List.drop 2 (redactSkGo fuel ('k' :: '-' :: rest)) = t2 := by
        rw [hOsh]
        simp
      rw [hdrop2] at hlen12
      have htwR : (('k' :: '-' :: rest).takeWhile isKeyChar).length
          = 2 + (rest.takeWhile isKeyChar).length := by
        simp [List.takeWhile_cons, isKeyChar_k, isKeyChar_dash]
        omega
      rw [htwO] at ih2
      rw [htwR] at ih2
      omega
    · have htwR : (('k' :: '-' :: rest).takeWhile isKeyChar).length
          = 2 + (rest.takeWhile isKeyChar).length := by
        simp [List.takeWhile_cons, isKeyChar_k, isKeyChar_dash]
        omega
      simp only [List.takeWhile_cons, isKeyChar_s, if_true]
      rw [htwR] at ih2
      simp [List.takeWhile_cons, isKeyChar_s, isKeyChar_k, isKeyChar_dash]
      omega
    · intro pat hpat hsw
      cases pat with
      | nil => rfl
      | cons p ps =>
        exfalso
        simp [startsWithL] at hsw
        exact hpat p (List.mem_cons_self p ps) hsw.1.symm
  | case4 fuel c rest h ih =>
    intro hl
    have hx : redactSkGo (fuel + 1) (c :: rest) = c :: redactSkGo fuel rest := by
      rw [redactSkGo]
      exact h
    have hlen : rest.length ≤ fuel := by
      simp at hl
      omega
    obtain ⟨ih1, ih2, ih3⟩ := ih hlen
    rw [hx]
    refine ⟨?_, ?_, ?_⟩
    · rw [show hasSkSecret (c :: redactSkGo fuel rest)
          = (skAt (c :: redactSkGo fuel rest)
            || hasSkSecret (redactSkGo fuel rest)) from rfl,
        ih1, Bool.or_false]
      by_contra hq
      rw [Bool.not_eq_false] at hq
      simp [skAt, startsWithL] at hq
      have hrest : startsWithL rest ['k', '-'] = true := by
        refine ih3 ['k', '-'] ?_ hq.1.2
        intro x hx2
        rcases List.mem_cons.mp hx2 with rfl | hx3
        · decide
        · rcases List.mem_cons.mp hx3 with rfl | hx4
          · decide
          · simp at hx4
      obtain ⟨t, ht, ht2⟩ := startsWithL_decompose hrest
      obtain ⟨t2, ht3, _⟩ := startsWithL_decompose ht2
      exact h t2 hq.1.1 (by rw [ht, ht3])
    · by_cases hck : isKeyChar c
      · simp [List.takeWhile_cons, hck]
        omega
      · simp [List.takeWhile_cons, hck]
    · intro pat hpat hsw
      cases pat with
      | nil => rfl
      | cons p ps =>
        simp [startsWithL] at hsw ⊢
        exact ⟨hsw.1, ih3 ps (fun x hx2 => hpat x (List.mem_cons_of_mem _ hx2)) hsw.2⟩
  | case5 fuel =>
    intro hl
    exact ⟨rfl, Nat.le_refl _, fun pat _ hq => hq⟩

theorem redactSk_clean (l : List Char) : hasSkSecret (redactSk l) = false :=
  (redactSkGo_clean l.length l (Nat.le_refl _)).1

theorem toLower_eq_self_of_ws (c : Char) (h : isJsWs c = true) :
    c.toLower = c := by
  have hn : ¬(c.toNat ≥ 65 ∧ c.toNat ≤ 90) := by
    simp [isJsWs] at h
    omega
  simp only [Char.toLower]
  rw [if_neg hn]

theorem ws_ne_a (c : Char) (h : isJsWs c = true) :
    ¬(c.toLower = Char.toLower 'a') := by
  rw [toLower_eq_self_of_ws c h, show Char.toLower 'a' = 'a' from by decide]
  intro he
  rw [he] at h
  exact absurd h (by decide)

theorem nonval_cases (c : Char) (h : isP2ValChar c = false) :
    isJsWs c = true ∨ c = ',' ∨ c = ';' := by
  by_cases hw : isJsWs c = true
  · exact Or.inl hw
  · by_cases hc1 : c = ','
    · exact Or.inr (Or.inl hc1)
    · by_cases hc2 : c = ';'
      · exact Or.inr (Or.inr hc2)
      · exfalso
        rw [Bool.not_eq_true] at hw
        rw [show isP2ValChar c = true from by
          simp [isP2ValChar, hw, hc1, hc2]] at h
        exact Bool.noConfusion h

theorem nonval_ne_a (c : Char) (h : isP2ValChar c = false) :
    ¬(c.toLower = Char.toLower 'a') := by
  rcases nonval_cases c h with h1 | h1 | h1
  · exact ws_ne_a c h1
  · rw [h1]; decide
  · rw [h1]; decide

theorem val_not_ws (c : Char) (h : isP2ValChar c = true) : isJsWs c = false := by
  by_contra hq
  rw [Bool.not_eq_false] at hq
  rw [show isP2ValChar c = false from by simp [isP2ValChar, hq]] at h
  exact Bool.noConfusion h

theorem dropCI_head_ne (p : Char) (ps : List Char) (c : Char) (X : List Char)
    (h : ¬(c.toLower = p.toLower)) : dropCI (p :: ps) (c :: X) = none := by
  simp [dropCI, h]

theorem matchP2_none_head (c : Char) (X : List Char)
    (h : ¬(c.toLower = Char.toLower 'a')) : matchP2 (c :: X) = none := by
  unfold matchP2
  rw [show ("api".data : List Char) = 'a' :: ['p', 'i'] from rfl,
    dropCI_head_ne 'a' ['p', 'i'] c X h]

theorem matchP2_nil : matchP2 ([] : List Char) = none := by decide

theorem p2CleanAt_of_none (l : List Char) (h : matchP2 l = none) :
    p2CleanAt l = true := by
  unfold p2CleanAt
  rw [h]

theorem dropCI_sound (pat : List Char) (A r : List Char)
    (h : dropCI pat A = some r) :
    ∃ c, A = c ++ r ∧ c.length = pat.length ∧
      ∀ x ∈ c, ∃ p ∈ pat, x.toLower = p.toLower := by
  induction pat generalizing A with
  | nil =>
    simp [dropCI] at h
    exact ⟨[], by simp [h], rfl, by simp⟩
  | cons p ps ih =>
    cases A with
    | nil => simp [dropCI] at h
    | cons a A1 =>
      by_cases hc : a.toLower = p.toLower
      · rw [show dropCI (p :: ps) (a :: A1) = dropCI ps A1 from by
          simp [dropCI, hc]] at h
        obtain ⟨c, hce, hcl, hcp⟩ := ih A1 h
        refine ⟨a :: c, by rw [List.cons_append, ← hce], by simp [hcl], ?_⟩
        intro x hx
        rcases List.mem_cons.mp hx with rfl | hx2
        · exact ⟨p, List.mem_cons_self p ps, hc⟩
        · obtain ⟨q, hq, hq2⟩ := hcp x hx2
          exact ⟨q, List.mem_cons_of_mem _ hq, hq2⟩
      · rw [dropCI_head_ne p ps a A1 hc] at h
        exact Option.noConfusion h

theorem dropCI_localize (pat : List Char) (A B : List Char)
    (hA : ':' ∈ A)
    (hpat : ∀ p ∈ pat, ¬(Char.toLower ':' = p.toLower)) :
    dropCI pat (A ++ B) = (dropCI pat A).map (· ++ B) := by
  induction pat generalizing A with
  | nil => simp [dropCI]
  | cons p ps ih =>
    cases A with
    | nil => simp at hA
    | cons a A1 =>
      rw [List.cons_append]
      by_cases hc : a.toLower = p.toLower
      · have ha : a ≠ ':' := by
          intro he
          rw [he] at hc
          exact hpat p (List.mem_cons_self p ps) hc
        have hA1 : ':' ∈ A1 := by
          rcases List.mem_cons.mp hA with he | h2
          · exact absurd he.symm ha
          · exact h2
        rw [show dropCI (p :: ps) (a :: (A1 ++ B)) = dropCI ps (A1 ++ B) from by
            simp [dropCI, hc],
          show dropCI (p :: ps) (a :: A1) = dropCI ps A1 from by
            simp [dropCI, hc]]
        exact ih A1 hA1 (fun q hq => hpat q (List.mem_cons_of_mem _ hq))
      · rw [dropCI_head_ne p ps a (A1 ++ B) hc, dropCI_head_ne p ps a A1 hc]
        rfl

theorem dropCI_append_some (pat : List Char) (A A2 B : List Char)
    (h : dropCI pat A = some A2) : dropCI pat (A ++ B) = some (A2 ++ B) := by
  induction pat generalizing A with
  | nil =>
    simp [dropCI] at h ⊢
    rw [h]
  | cons p ps ih =>
    cases A with
    | nil => simp [dropCI] at h
    | cons a A1 =>
      rw [List.cons_append]
      by_cases hc : a.toLower = p.toLower
      · rw [show dropCI (p :: ps) (a :: A1) = dropCI ps A1 from by
          simp [dropCI, hc]] at h
        rw [show dropCI (p :: ps) (a :: (A1 ++ B)) = dropCI ps (A1 ++ B) from by
          simp [dropCI, hc]]
        exact ih A1 h
      · rw [dropCI_head_ne p ps a A1 hc] at h
        exact Option.noConfusion h

theorem findKeySplit_sound (l : List Char) (n : Nat) (r : List Char)
    (h : findKeySplit l n = some r) :
    ∃ m ≤ n, dropCI "key".data (l.drop m) = some r := by
  induction n with
  | zero =>
    rw [findKeySplit] at h
    exact ⟨0, Nat.le_refl 0, by simpa using h⟩
  | succ n ih =>
    rw [findKeySplit] at h
    cases hd : dropCI "key".data (l.drop (n + 1)) with
    | some r2 =>
      rw [hd] at h
      dsimp only at h
      injection h with h2
      exact ⟨n + 1, Nat.le_refl _, by rw [hd, h2]⟩
    | none =>
      rw [hd] at h
      dsimp only at h
      obtain ⟨m, hm, h2⟩ := ih h
      exact ⟨m, Nat.le_succ_of_le hm, h2⟩

theorem findKeySplit_localize (A B : List Char) (n : Nat)
    (h : ':' ∈ A.drop n) :
    findKeySplit (A ++ B) n = (findKeySplit A n).map (· ++ B) := by
  induction n with
  | zero =>
    rw [findKeySplit, findKeySplit]
    exact dropCI_localize "key".data A B (by simpa using h) (by decide)
  | succ n ih =>
    rw [findKeySplit, findKeySplit]
    have hlen : n + 1 ≤ A.length := by
      by_contra hq
      push_neg at hq
      rw [List.drop_eq_nil_of_le (by omega)] at h
      simp at h
    rw [List.drop_append_of_le_length hlen,
      dropCI_localize "key".data (A.drop (n + 1)) B h (by decide)]
    cases hd : dropCI "key".data (A.drop (n + 1)) with
    | some r => simp
    | none =>
      simp only [Option.map_none]
      exact ih ((List.drop_suffix_drop_left A (Nat.le_succ n)).mem h)

theorem mem_take_takeWhile (p : Char → Bool) (l : List Char) (m : Nat)
    (hm : m ≤ (l.takeWhile p).length) :
    ∀ x ∈ l.take m, p x = true := by
  intro x hx
  have hpre : l.takeWhile p = l.take (l.takeWhile p).length :=
    List.prefix_iff_eq_take.mp (List.takeWhile_prefix p)
  have : l.take m = (l.takeWhile p).take m := by
    rw [hpre, List.take_take, Nat.min_eq_left hm]
  rw [this] at hx
  exact List.mem_takeWhile_imp (List.take_subset m _ hx)

theorem dropWhile_append_all (p : Char → Bool) (A B : List Char)
    (h : A.dropWhile p = []) : (A ++ B).dropWhile p = B.dropWhile p := by
  rw [List.dropWhile_append, h]
  rfl

theorem dropWhile_append_stop (p : Char → Bool) (A B : List Char)
    (h : A.dropWhile p ≠ []) : (A ++ B).dropWhile p = A.dropWhile p ++ B := by
  rw [List.dropWhile_append, if_neg (by simpa using h)]

theorem dropWhile_ne_nil_of_mem (p : Char → Bool) (A : List Char) (x : Char)
    (hx : x ∈ A) (hpx : p x = false) : A.dropWhile p ≠ [] := by
  intro hq
  rw [List.dropWhile_eq_nil_iff] at hq
  rw [hq x hx] at hpx
  exact Bool.noConfusion hpx

theorem dropWhile_head_mem (p : Char → Bool) (A : List Char) (d : Char)
    (t : List Char) (h : A.dropWhile p = d :: t) : d ∈ A ∧ p d = false := by
  constructor
  · exact (List.dropWhile_suffix p).mem (by rw [h]; exact List.mem_cons_self d t)
  · have := List.head?_dropWhile_not p A
    rw [h] at this
    simpa using this

theorem drop_takeWhile_length (p : Char → Bool) (L : List Char) :
    L.drop (L.takeWhile p).length = L.dropWhile p := by
  induction L with
  | nil => rfl
  | cons a L ih =>
    by_cases h : p a
    · simp [List.takeWhile_cons, List.dropWhile_cons, h, ih]
    · simp [List.takeWhile_cons, List.dropWhile_cons, h]

theorem matchP2_decompose (l label v rest : List Char)
    (h : matchP2 l = some (label, v, rest)) :
    l = label ++ (v ++ rest) ∧
    (∃ pre wsp, label = pre ++ (':' :: wsp) ∧ ':' ∉ pre ∧
      ∀ c ∈ wsp, isJsWs c = true) ∧
    v ≠ [] ∧ (∀ c ∈ v, isP2ValChar c = true) ∧
    (∀ c, rest.head? = some c → isP2ValChar c = false) := by
  unfold matchP2 at h
  cases h1 : dropCI "api".data l with
  | none =>
    rw [h1] at h
    exact Option.noConfusion h
  | some afterApi =>
    rw [h1] at h
    dsimp only at h
    cases h2 : findKeySplit afterApi ((afterApi.takeWhile isClsChar).length) with
    | none =>
      rw [h2] at h
      exact Option.noConfusion h
    | some afterKeyLit =>
      rw [h2] at h
      dsimp only at h
      cases h3 : afterKeyLit.dropWhile notColonNl with
      | nil =>
        rw [h3] at h
        exact Option.noConfusion h
      | cons d afterColon =>
        rw [h3] at h
        dsimp only at h
        by_cases hd : d = ':'
        case neg =>
          rw [if_neg hd] at h
          exact Option.noConfusion h
        case pos =>
          subst hd
          rw [if_pos rfl] at h
          by_cases hv :
              (((afterColon.dropWhile isJsWs).takeWhile isP2ValChar).length = 0)
          · rw [if_pos hv] at h
            exact Option.noConfusion h
          · rw [if_neg hv] at h
            injection h with h4
            simp only [Prod.mk.injEq] at h4
            obtain ⟨hlab, hval, hrest⟩ := h4
            obtain ⟨capi, hl1, hclen, hch1⟩ := dropCI_sound "api".data l afterApi h1
            obtain ⟨m, hm, hds⟩ :=
              findKeySplit_sound afterApi ((afterApi.takeWhile isClsChar).length)
                afterKeyLit h2
            obtain ⟨ckey, hl2, hklen, hch2⟩ :=
              dropCI_sound "key".data (afterApi.drop m) afterKeyLit hds
            have hAA : afterApi = afterApi.take m ++ (ckey ++ afterKeyLit) := by
              rw [← hl2, List.take_append_drop]
            have hAK : afterKeyLit
                = afterKeyLit.takeWhile notColonNl ++ (':' :: afterColon) := by
              rw [← h3]
              exact (List.takeWhile_append_dropWhile notColonNl afterKeyLit).symm
            have hAC : afterColon
                = afterColon.takeWhile isJsWs ++ afterColon.dropWhile isJsWs :=
              (List.takeWhile_append_dropWhile isJsWs afterColon).symm
            have hdw : (afterColon.dropWhile isJsWs).drop
                  ((afterColon.dropWhile isJsWs).takeWhile isP2ValChar).length
                = (afterColon.dropWhile isJsWs).dropWhile isP2ValChar :=
              drop_takeWhile_length isP2ValChar (afterColon.dropWhile isJsWs)
            have hAW : afterColon.dropWhile isJsWs = v ++ rest := by
              rw [← hval, ← hrest, hdw]
              exact (List.takeWhile_append_dropWhile isP2ValChar
                (afterColon.dropWhile isJsWs)).symm
            have hlfull : l = capi ++ (afterApi.take m ++ (ckey ++
                (afterKeyLit.takeWhile notColonNl ++
                  (':' :: (afterColon.takeWhile isJsWs ++ (v ++ rest)))))) := by
              rw [hl1]
              conv_lhs => rw [hAA]
              conv_lhs => rw [hAK]
              conv_lhs => rw [hAC]
              conv_lhs => rw [hAW]
            have hsplit : l = ((capi ++ (afterApi.take m ++ (ckey ++
                afterKeyLit.takeWhile notColonNl))) ++
                  (':' :: afterColon.takeWhile isJsWs))
                ++ (v ++ rest) := by
              rw [hlfull]
              simp [List.append_assoc]
            have hawlen : (afterColon.dropWhile isJsWs).length
                = (v ++ rest).length := by rw [hAW]
            have hlab2 : label = (capi ++ (afterApi.take m ++ (ckey ++
                afterKeyLit.takeWhile notColonNl))) ++
                  (':' :: afterColon.takeWhile isJsWs) := by
              rw [← hlab, hawlen, hsplit, List.length_append, Nat.add_sub_cancel,
                List.take_left]
            refine ⟨?_, ?_, ?_, ?_, ?_⟩
            · rw [hlab2, ← hsplit]
            · refine ⟨capi ++ (afterApi.take m ++ (ckey ++
                afterKeyLit.takeWhile notColonNl)),
                afterColon.takeWhile isJsWs, ?_, ?_, ?_⟩
              · rw [hlab2]
              · intro hq
                simp only [List.mem_append] at hq
                rcases hq with (hq | hq | hq | hq)
                · obtain ⟨p, hp, hp2⟩ := hch1 ':' hq
                  have hnc : ∀ q ∈ ("api".data : List Char),
                      ¬(Char.toLower ':' = q.toLower) := by decide
                  exact hnc p hp hp2
                · have := mem_take_takeWhile isClsChar afterApi m hm ':' hq
                  exact absurd this (by decide)
                · obtain ⟨p, hp, hp2⟩ := hch2 ':' hq
                  have hnc : ∀ q ∈ ("key".data : List Char),
                      ¬(Char.toLower ':' = q.toLower) := by decide
                  exact hnc p hp hp2
                · have := List.mem_takeWhile_imp hq
                  exact absurd this (by decide)
              · intro c hc
                exact List.mem_takeWhile_imp hc
            · intro he
              rw [he] at hval
              rw [hval] at hv
              simp at hv
            · intro c hc
              rw [← hval] at hc
              exact List.mem_takeWhile_imp hc
            · intro c hc
              rw [← hrest, hdw] at hc
              have := List.head?_dropWhile_not isP2ValChar
                (afterColon.dropWhile isJsWs)
              rw [hc] at this
              simpa using this

theorem matchP2_transfer (A X Z : List Char)
    (hA : ':' ∈ A)
    (hX : ∃ c t, X = c :: t ∧ isP2ValChar c = true)
    (hZ : ∃ c t, Z = c :: t ∧ isP2ValChar c = true)
    (h : matchP2 (A ++ X) = none) : matchP2 (A ++ Z) = none := by
  have hapi : ∀ W : List Char, dropCI "api".data (A ++ W)
      = (dropCI "api".data A).map (· ++ W) :=
    fun W => dropCI_localize "api".data A W hA (by decide)
  unfold matchP2 at h ⊢
  rw [hapi X] at h
  rw [hapi Z]
  cases hA2 : dropCI "api".data A with
  | none => rfl
  | some A2 =>
    rw [hA2] at h
    simp only [Option.map_some'] at h ⊢
    have hA2c : ':' ∈ A2 := by
      obtain ⟨c3, he, hle, hch⟩ := dropCI_sound "api".data A A2 hA2
      have hnc : ∀ q ∈ ("api".data : List Char),
          ¬(Char.toLower ':' = q.toLower) := by decide
      rw [he] at hA
      rcases List.mem_append.mp hA with hq | hq
      · obtain ⟨p, hp, hp2⟩ := hch ':' hq
        exact absurd hp2 (hnc p hp)
      · exact hq
    have htw : ∀ W : List Char, ((A2 ++ W).takeWhile isClsChar).length
        = (A2.takeWhile isClsChar).length := by
      intro W
      rw [takeWhile_append_internal isClsChar A2 W ⟨':', hA2c, by decide⟩]
    rw [htw X] at h
    rw [htw Z]
    have hcolon_drop : ':' ∈ A2.drop ((A2.takeWhile isClsChar).length) := by
      have hnottake : ':' ∉ A2.take ((A2.takeWhile isClsChar).length) := by
        intro hq
        have := mem_take_takeWhile isClsChar A2 _ (Nat.le_refl _) ':' hq
        exact absurd this (by decide)
      have hsplitmem : ':' ∈ A2.take ((A2.takeWhile isClsChar).length)
          ++ A2.drop ((A2.takeWhile isClsChar).length) := by
        rw [List.take_append_drop]
        exact hA2c
      rcases List.mem_append.mp hsplitmem with hq | hq
      · exact absurd hq hnottake
      · exact hq
    have hfks : ∀ W, findKeySplit (A2 ++ W) ((A2.takeWhile isClsChar).length)
        = (findKeySplit A2 ((A2.takeWhile isClsChar).length)).map (· ++ W) :=
      fun W => findKeySplit_localize A2 W _ hcolon_drop
    rw [hfks X] at h
    rw [hfks Z]
    cases hA3 : findKeySplit A2 ((A2.takeWhile isClsChar).length) with
    | none => rfl
    | some A3 =>
      rw [hA3] at h
      simp only [Option.map_some'] at h ⊢
      have hA3c : ':' ∈ A3 := by
        obtain ⟨m, hm, hds⟩ := findKeySplit_sound A2 _ A3 hA3
        obtain ⟨ck, he, hle, hch⟩ := dropCI_sound "key".data (A2.drop m) A3 hds
        have hmem : ':' ∈ A2.drop m :=
          (List.drop_suffix_drop_left A2 hm).mem hcolon_drop
        have hnc : ∀ q ∈ ("key".data : List Char),
            ¬(Char.toLower ':' = q.toLower) := by decide
        rw [he] at hmem
        rcases List.mem_append.mp hmem with hq | hq
        · obtain ⟨p, hp, hp2⟩ := hch ':' hq
          exact absurd hp2 (hnc p hp)
        · exact hq
      have hstop : A3.dropWhile notColonNl ≠ [] :=
        dropWhile_ne_nil_of_mem notColonNl A3 ':' hA3c (by decide)
      have hdwl : ∀ W, (A3 ++ W).dropWhile notColonNl
          = A3.dropWhile notColonNl ++ W :=
        fun W => dropWhile_append_stop notColonNl A3 W hstop
      rw [hdwl X] at h
      rw [hdwl Z]
      cases hA4 : A3.dropWhile notColonNl with
      | nil => exact absurd hA4 hstop
      | cons d A4 =>
        rw [hA4] at h
        rw [List.cons_append] at h ⊢
        dsimp only at h ⊢
        by_cases hd : d = ':'
        case neg =>
          rw [if_neg hd]
        case pos =>
          subst hd
          rw [if_pos rfl] at h ⊢
          cases hA5 : A4.dropWhile isJsWs with
          | cons e A5 =>
            have hwsl : ∀ W, (A4 ++ W).dropWhile isJsWs = (e :: A5) ++ W := by
              intro W
              rw [dropWhile_append_stop isJsWs A4 W (by rw [hA5]; simp), hA5]
            rw [hwsl X] at h
            rw [hwsl Z]
            have hews : isJsWs e = false := (dropWhile_head_mem isJsWs A4 e A5 hA5).2
            by_cases hev : isP2ValChar e = true
            · exfalso
              rw [List.cons_append] at h
              rw [show ((e :: (A5 ++ X)).takeWhile isP2ValChar)
                  = e :: ((A5 ++ X).takeWhile isP2ValChar) from by
                simp [List.takeWhile_cons, hev]] at h
              simp at h
            · rw [Bool.not_eq_true] at hev
              rw [List.cons_append]
              rw [show ((e :: (A5 ++ Z)).takeWhile isP2ValChar)
                  = ([] : List Char) from by
                simp [List.takeWhile_cons, hev]]
              simp
          | nil =>
            exfalso
            have hwsl : ∀ W, (A4 ++ W).dropWhile isJsWs = W.dropWhile isJsWs :=
              fun W => dropWhile_append_all isJsWs A4 W hA5
            rw [hwsl X] at h
            obtain ⟨c, t, rfl, hc⟩ := hX
            rw [show (c :: t).dropWhile isJsWs = c :: t from by
              simp [List.dropWhile_cons, val_not_ws c hc]] at h
            rw [show ((c :: t).takeWhile isP2ValChar)
                = c :: (t.takeWhile isP2ValChar) from by
              simp [List.takeWhile_cons, hc]] at h
            simp at h

theorem dropCI_colon_block (pat : List Char) :
    ∀ pre2 Q : List Char, (∀ p ∈ pat, ¬(Char.toLower ':' = p.toLower)) →
      ':' ∉ pre2 →
      dropCI pat (pre2 ++ (':' :: Q)) = none ∨
      ∃ pre3, dropCI pat (pre2 ++ (':' :: Q)) = some (pre3 ++ (':' :: Q)) ∧
        ':' ∉ pre3 := by
  induction pat with
  | nil =>
    intro pre2 Q hpat hpre2
    right
    exact ⟨pre2, by simp [dropCI], hpre2⟩
  | cons p ps ih =>
    intro pre2 Q hpat hpre2
    cases pre2 with
    | nil =>
      left
      rw [List.nil_append]
      exact dropCI_head_ne p ps ':' Q
        (fun he => hpat p (List.mem_cons_self p ps) he)
    | cons a pre2t =>
      rw [List.cons_append]
      by_cases hc : a.toLower = p.toLower
      · rw [show dropCI (p :: ps) (a :: (pre2t ++ (':' :: Q)))
            = dropCI ps (pre2t ++ (':' :: Q)) from by simp [dropCI, hc]]
        exact ih pre2t Q (fun q hq => hpat q (List.mem_cons_of_mem _ hq))
          (fun hq => hpre2 (List.mem_cons_of_mem _ hq))
      · left
        exact dropCI_head_ne p ps a (pre2t ++ (':' :: Q)) hc

theorem findKeySplit_colon_block (n : Nat) :
    ∀ pre3 Q : List Char, ':' ∉ pre3 → n ≤ pre3.length →
      findKeySplit (pre3 ++ (':' :: Q)) n = none ∨
      ∃ pre4, findKeySplit (pre3 ++ (':' :: Q)) n = some (pre4 ++ (':' :: Q)) ∧
        ':' ∉ pre4 := by
  induction n with
  | zero =>
    intro pre3 Q hp hn
    rw [findKeySplit]
    exact dropCI_colon_block "key".data pre3 Q (by decide) hp
  | succ n ih =>
    intro pre3 Q hp hn
    rw [findKeySplit]
    have hdrop : (pre3 ++ (':' :: Q)).drop (n + 1)
        = pre3.drop (n + 1) ++ (':' :: Q) :=
      List.drop_append_of_le_length hn
    rw [hdrop]
    have hsub : ':' ∉ pre3.drop (n + 1) :=
      fun hq => hp (List.drop_subset _ _ hq)
    rcases dropCI_colon_block "key".data (pre3.drop (n + 1)) Q (by decide) hsub
      with hc | ⟨pre4, hc, hp4⟩
    · rw [hc]
      dsimp only
      exact ih pre3 Q hp (by omega)
    · rw [hc]
      dsimp only
      right
      exact ⟨pre4, rfl, hp4⟩

theorem matchP2_colon_block (pre2 wsp T : List Char)
    (hpre2 : ':' ∉ pre2) (hwsp : ∀ c ∈ wsp, isJsWs c = true)
    (hT : ∀ c, T.head? = some c → isP2ValChar c = false) :
    matchP2 (pre2 ++ (':' :: (wsp ++ ("***REDACTED***".data ++ T)))) = none ∨
    ∃ lab rest2,
      matchP2 (pre2 ++ (':' :: (wsp ++ ("***REDACTED***".data ++ T))))
        = some (lab, "***REDACTED***".data, rest2) := by
  unfold matchP2
  rcases dropCI_colon_block "api".data pre2
      (wsp ++ ("***REDACTED***".data ++ T)) (by decide) hpre2
    with hc | ⟨pre3, hc, hp3⟩
  · rw [hc]
    left
    rfl
  · rw [hc]
    dsimp only
    rw [takeWhile_append_stop isClsChar pre3 ':'
      (wsp ++ ("***REDACTED***".data ++ T)) (by decide)]
    rcases findKeySplit_colon_block ((pre3.takeWhile isClsChar).length) pre3
        (wsp ++ ("***REDACTED***".data ++ T)) hp3
        (List.takeWhile_prefix isClsChar).length_le
      with hf | ⟨pre4, hf, hp4⟩
    · rw [hf]
      left
      rfl
    · rw [hf]
      dsimp only
      cases hdw : pre4.dropWhile notColonNl with
      | nil =>
        rw [dropWhile_append_all notColonNl pre4
          (':' :: (wsp ++ ("***REDACTED***".data ++ T))) hdw]
        rw [show ((':' :: (wsp ++ ("***REDACTED***".data ++ T))).dropWhile
            notColonNl) = ':' :: (wsp ++ ("***REDACTED***".data ++ T)) from by
          simp [List.dropWhile_cons, (by decide : notColonNl ':' = false)]]
        dsimp only
        rw [if_pos rfl]
        have haw : (wsp ++ ("***REDACTED***".data ++ T)).dropWhile isJsWs
            = "***REDACTED***".data ++ T := by
          rw [dropWhile_append_all isJsWs wsp _
            (List.dropWhile_eq_nil_iff.mpr hwsp)]
          rw [show ("***REDACTED***".data ++ T)
              = '*' :: ("**REDACTED***".data ++ T) from rfl]
          simp [List.dropWhile_cons, (by decide : isJsWs ('*' : Char) = false)]
        rw [haw]
        have hval : (("***REDACTED***".data ++ T).takeWhile isP2ValChar)
            = "***REDACTED***".data := by
          cases hT2 : T with
          | nil =>
            rw [List.append_nil]
            decide
          | cons c t =>
            have hcv := hT c (by rw [hT2]; rfl)
            rw [List.takeWhile_append, if_pos (by decide)]
            rw [show ((c :: t).takeWhile isP2ValChar) = [] from by
              simp [List.takeWhile_cons, hcv]]
            simp
        rw [hval]
        rw [if_neg (by decide)]
        right
        exact ⟨_, _, rfl⟩
      | cons d4 t4 =>
        rw [dropWhile_append_stop notColonNl pre4
          (':' :: (wsp ++ ("***REDACTED***".data ++ T))) (by rw [hdw]; simp),
          hdw, List.cons_append]
        dsimp only
        have hd4 : d4 ≠ ':' := by
          have := (dropWhile_head_mem notColonNl pre4 d4 t4 hdw).1
          exact fun he => hp4 (he ▸ this)
        rw [if_neg hd4]
        left
        rfl

theorem p2CleanAt_label_drop (pre wsp T : List Char) (j : Nat)
    (hpre : ':' ∉ pre) (hwsp : ∀ c ∈ wsp, isJsWs c = true)
    (hT : ∀ c, T.head? = some c → isP2ValChar c = false) :
    p2CleanAt ((pre ++ (':' :: wsp)).drop j
      ++ ("***REDACTED***".data ++ T)) = true := by
  by_cases hj : j ≤ pre.length
  · rw [List.drop_append_of_le_length hj, List.append_assoc, List.cons_append]
    rcases matchP2_colon_block (pre.drop j) wsp T
        (fun hq => hpre (List.drop_subset _ _ hq)) hwsp hT
      with hc | ⟨lab, r2, hc⟩
    · exact p2CleanAt_of_none _ hc
    · unfold p2CleanAt
      rw [hc]
      simp
  · push_neg at hj
    rw [List.drop_append_eq_append_drop,
      List.drop_eq_nil_of_le (by omega), List.nil_append]
    have hk : j - pre.length = (j - pre.length - 1) + 1 := by omega
    rw [hk, List.drop_succ_cons]
    cases hW : wsp.drop (j - pre.length - 1) with
    | nil =>
      rw [List.nil_append]
      exact p2CleanAt_of_none _ (matchP2_none_head '*' _ (by decide))
    | cons w wt =>
      rw [List.cons_append]
      refine p2CleanAt_of_none _ ?_
      have hw : isJsWs w = true := hwsp w (List.drop_subset _ _
        (by rw [hW]; exact List.mem_cons_self w wt))
      exact matchP2_none_head w _ (ws_ne_a w hw)

theorem p2CleanAt_redTok_drop (T : List Char) (i : Nat) (hi : i < 14) :
    p2CleanAt ("***REDACTED***".data.drop i ++ T) = true := by
  have hA : p2CleanAt ('A' :: ('C' :: 'T' :: 'E' :: 'D' :: '*' :: '*' :: '*'
      :: T)) = true := by
    refine p2CleanAt_of_none _ ?_
    unfold matchP2
    rw [show ("api".data : List Char) = 'a' :: 'p' :: 'i' :: [] from rfl]
    rw [show dropCI ('a' :: 'p' :: 'i' :: [])
        ('A' :: ('C' :: 'T' :: 'E' :: 'D' :: '*' :: '*' :: '*' :: T))
        = none from by simp [dropCI]]
  interval_cases i
  · exact p2CleanAt_of_none _ (matchP2_none_head '*' _ (by decide))
  · exact p2CleanAt_of_none _ (matchP2_none_head '*' _ (by decide))
  · exact p2CleanAt_of_none _ (matchP2_none_head '*' _ (by decide))
  · exact p2CleanAt_of_none _ (matchP2_none_head 'R' _ (by decide))
  · exact p2CleanAt_of_none _ (matchP2_none_head 'E' _ (by decide))
  · exact p2CleanAt_of_none _ (matchP2_none_head 'D' _ (by decide))
  · exact hA
  · exact p2CleanAt_of_none _ (matchP2_none_head 'C' _ (by decide))
  · exact p2CleanAt_of_none _ (matchP2_none_head 'T' _ (by decide))
  · exact p2CleanAt_of_none _ (matchP2_none_head 'E' _ (by decide))
  · exact p2CleanAt_of_none _ (matchP2_none_head 'D' _ (by decide))
  · exact p2CleanAt_of_none _ (matchP2_none_head '*' _ (by decide))
  · exact p2CleanAt_of_none _ (matchP2_none_head '*' _ (by decide))
  · exact p2CleanAt_of_none _ (matchP2_none_head '*' _ (by decide))

theorem redactApiKeyGo_nil (f : Nat) : redactApiKeyGo f [] = [] := by
  cases f <;> rfl

theorem redactApiKeyGo_head_none (f : Nat) (c : Char) (t : List Char)
    (hm : matchP2 (c :: t) = none) (hf : 1 ≤ f) :
    ∃ f2, redactApiKeyGo f (c :: t) = c :: redactApiKeyGo f2 t := by
  cases f with
  | zero => omega
  | succ f2 =>
    refine ⟨f2, ?_⟩
    rw [redactApiKeyGo, hm]

theorem redactApiKeyGo_diverge (fuel : Nat) (l : List Char) :
    l.length ≤ fuel →
      redactApiKeyGo fuel l = l ∨
      ∃ A v rest f2, l = A ++ (v ++ rest) ∧
        redactApiKeyGo fuel l
          = A ++ ("***REDACTED***".data ++ redactApiKeyGo f2 rest) ∧
        rest.length ≤ f2 ∧ ':' ∈ A ∧
        (∃ c t, v = c :: t ∧ isP2ValChar c = true) := by
  induction fuel, l using redactApiKeyGo.induct with
  | case1 l =>
    intro hl
    left
    rfl
  | case2 fuel =>
    intro hl
    left
    rfl
  | case3 fuel c rest0 label v restAfter hm ih =>
    intro hl
    right
    have hx : redactApiKeyGo (fuel + 1) (c :: rest0)
        = label ++ "***REDACTED***".data ++ redactApiKeyGo fuel restAfter := by
      rw [redactApiKeyGo, hm]
    obtain ⟨hdec, ⟨pre, wsp, hlabdec, hpre, hwsp⟩, hvne, hvval, hrh⟩ :=
      matchP2_decompose (c :: rest0) label v restAfter hm
    refine ⟨label, v, restAfter, fuel, hdec, ?_, ?_, ?_, ?_⟩
    · rw [hx, List.append_assoc]
    · have h1 := congrArg List.length hdec
      simp [List.length_append] at h1
      have h2 : 1 ≤ label.length := by
        rw [hlabdec]
        simp [List.length_append]
        omega
      simp at hl
      omega
    · rw [hlabdec]
      exact List.mem_append.mpr (Or.inr (List.mem_cons_self ':' wsp))
    · cases v with
      | nil => exact absurd rfl hvne
      | cons cv tv => exact ⟨cv, tv, rfl, hvval cv (List.mem_cons_self cv tv)⟩
  | case4 fuel c rest0 hm ih =>
    intro hl
    have hx : redactApiKeyGo (fuel + 1) (c :: rest0)
        = c :: redactApiKeyGo fuel rest0 := by
      rw [redactApiKeyGo, hm]
    have hlen : rest0.length ≤ fuel := by
      simp at hl
      omega
    rcases ih hlen with h0 | ⟨A, v, rest, f2, hdec, hout, hf2, hcol, hv⟩
    · left
      rw [hx, h0]
    · right
      refine ⟨c :: A, v, rest, f2, by rw [List.cons_append, ← hdec], ?_, hf2,
        List.mem_cons_of_mem c hcol, hv⟩
      rw [hx, hout]
      simp

theorem redactApiKeyGo_sk (fuel : Nat) (l : List Char) :
    l.length ≤ fuel → hasSkSecret l = false →
      hasSkSecret (redactApiKeyGo fuel l) = false := by
  induction fuel, l using redactApiKeyGo.induct with
  | case1 l =>
    intro hl hs
    exact hs
  | case2 fuel =>
    intro hl hs
    rfl
  | case3 fuel c rest0 label v restAfter hm ih =>
    intro hl hs
    rw [show redactApiKeyGo (fuel + 1) (c :: rest0)
        = label ++ ("***REDACTED***".data ++ redactApiKeyGo fuel restAfter) from by
      rw [redactApiKeyGo, hm, ← List.append_assoc]]
    obtain ⟨hdec, ⟨pre, wsp, hlabdec, hpre, hwsp⟩, hvne, hvval, hrh⟩ :=
      matchP2_decompose (c :: rest0) label v restAfter hm
    rw [hdec, hasSkSecret_append_false] at hs
    obtain ⟨hsA, hsVR⟩ := hs
    rw [hasSkSecret_append_false] at hsVR
    obtain ⟨hsV, hsR⟩ := hsVR
    have hlenR : restAfter.length ≤ fuel := by
      have h1 := congrArg List.length hdec
      simp [List.length_append] at h1
      have h2 : 1 ≤ label.length := by
        rw [hlabdec]
        simp [List.length_append]
        omega
      simp at hl
      omega
    rw [hasSkSecret_append_false]
    refine ⟨?_, ?_⟩
    · intro j hj
      by_contra hq
      rw [Bool.not_eq_false] at hq
      have htr := skAt_transfer (label.drop j)
        ("***REDACTED***".data ++ redactApiKeyGo fuel restAfter)
        (v ++ restAfter)
        (by
          intro c2 hc2
          simp at hc2
          rw [← hc2]
          decide) hq
      have h2 := hsA j hj
      rw [htr] at h2
      exact Bool.noConfusion h2
    · rw [redTok_sk_clean]
      exact ih hlenR hsR
  | case4 fuel c rest0 hm ih =>
    intro hl hs
    have hx : redactApiKeyGo (fuel + 1) (c :: rest0)
        = c :: redactApiKeyGo fuel rest0 := by
      rw [redactApiKeyGo, hm]
    rw [hx]
    obtain ⟨hsk0, hsrest⟩ := Bool.or_eq_false_iff.mp
      (show (skAt (c :: rest0) || hasSkSecret rest0) = false from hs)
    have hlen : rest0.length ≤ fuel := by
      simp at hl
      omega
    rw [show hasSkSecret (c :: redactApiKeyGo fuel rest0)
        = (skAt (c :: redactApiKeyGo fuel rest0)
          || hasSkSecret (redactApiKeyGo fuel rest0)) from rfl,
      ih hlen hsrest, Bool.or_false]
    by_contra hq
    rw [Bool.not_eq_false] at hq
    rcases redactApiKeyGo_diverge (fuel + 1) (c :: rest0) hl
      with h0 | ⟨A, v, rest, f2, hdec, hout, hf2, hcol, hvh⟩
    · rw [hx] at h0
      injection h0 with h02 h03
      rw [h03] at hq
      rw [hsk0] at hq
      exact Bool.noConfusion hq
    · rw [hx] at hout
      rw [hout] at hq
      have htr := skAt_transfer A
        ("***REDACTED***".data ++ redactApiKeyGo f2 rest) (v ++ rest)
        (by
          intro c2 hc2
          simp at hc2
          rw [← hc2]
          decide) hq
      rw [← hdec, hsk0] at htr
      exact Bool.noConfusion htr

theorem redactApiKeyGo_p2 (fuel : Nat) (l : List Char) :
    l.length ≤ fuel →
      p2Clean (redactApiKeyGo fuel l) = true ∧
      (matchP2 l = none → matchP2 (redactApiKeyGo fuel l) = none) := by
  induction fuel, l using redactApiKeyGo.induct with
  | case1 l =>
    intro hl
    obtain rfl : l = [] := List.eq_nil_of_length_eq_zero (Nat.le_zero.mp hl)
    exact ⟨rfl, fun hm2 => hm2⟩
  | case2 fuel =>
    intro hl
    exact ⟨rfl, fun hm2 => hm2⟩
  | case3 fuel c rest0 label v restAfter hm ih =>
    intro hl
    have hx : redactApiKeyGo (fuel + 1) (c :: rest0)
        = label ++ ("***REDACTED***".data ++ redactApiKeyGo fuel restAfter) := by
      rw [redactApiKeyGo, hm, ← List.append_assoc]
    obtain ⟨hdec, ⟨pre, wsp, hlabdec, hpre, hwsp⟩, hvne, hvval, hrh⟩ :=
      matchP2_decompose (c :: rest0) label v restAfter hm
    have hlenR : restAfter.length ≤ fuel := by
      have h1 := congrArg List.length hdec
      simp [List.length_append] at h1
      have h2 : 1 ≤ label.length := by
        rw [hlabdec]
        simp [List.length_append]
        omega
      simp at hl
      omega
    obtain ⟨ihp, iht⟩ := ih hlenR
    have hOhead : ∀ c2, (redactApiKeyGo fuel restAfter).head? = some c2 →
        isP2ValChar c2 = false := by
      intro c2 hc2
      cases hra : restAfter with
      | nil =>
        rw [hra, redactApiKeyGo_nil] at hc2
        exact Option.noConfusion hc2
      | cons rc rt =>
        have hrcv : isP2ValChar rc = false := hrh rc (by rw [hra]; rfl)
        have hmr : matchP2 (rc :: rt) = none :=
          matchP2_none_head rc rt (nonval_ne_a rc hrcv)
        have hf1 : 1 ≤ fuel := by
          rw [hra] at hlenR
          simp at hlenR
          omega
        obtain ⟨f3, hf3⟩ := redactApiKeyGo_head_none fuel rc rt hmr hf1
        rw [hra, hf3] at hc2
        simp at hc2
        rw [← hc2]
        exact hrcv
    refine ⟨?_, ?_⟩
    · rw [hx, p2Clean_append]
      refine ⟨?_, ?_⟩
      · intro j hj
        rw [hlabdec]
        exact p2CleanAt_label_drop pre wsp (redactApiKeyGo fuel restAfter) j
          hpre hwsp hOhead
      · rw [p2Clean_append]
        refine ⟨?_, ihp⟩
        intro j hj
        refine p2CleanAt_redTok_drop (redactApiKeyGo fuel restAfter) j ?_
        have h14 : ("***REDACTED***".data : List Char).length = 14 := by decide
        omega
    · intro hmc
      rw [hm] at hmc
      exact Option.noConfusion hmc
  | case4 fuel c rest0 hm ih =>
    intro hl
    have hx : redactApiKeyGo (fuel + 1) (c :: rest0)
        = c :: redactApiKeyGo fuel rest0 := by
      rw [redactApiKeyGo, hm]
    have hlen : rest0.length ≤ fuel := by
      simp at hl
      omega
    obtain ⟨ihp, iht⟩ := ih hlen
    have htrans : matchP2 (redactApiKeyGo (fuel + 1) (c :: rest0)) = none := by
      rcases redactApiKeyGo_diverge (fuel + 1) (c :: rest0) hl
        with h0 | ⟨A, v, rest, f2, hdec, hout, hf2, hcol, hvh⟩
      · rw [h0]
        exact hm
      · rw [hout]
        refine matchP2_transfer A (v ++ rest)
          ("***REDACTED***".data ++ redactApiKeyGo f2 rest) hcol ?_ ?_ ?_
        · obtain ⟨cv, tv, rfl, hcv⟩ := hvh
          exact ⟨cv, tv ++ rest, by rw [List.cons_append], hcv⟩
        · exact ⟨'*', "**REDACTED***".data ++ redactApiKeyGo f2 rest, rfl,
            by decide⟩
        · rw [← hdec]
          exact hm
    refine ⟨?_, fun _ => htrans⟩
    rw [hx,
      show p2Clean (c :: redactApiKeyGo fuel rest0)
        = (p2CleanAt (c :: redactApiKeyGo fuel rest0)
          && p2Clean (redactApiKeyGo fuel rest0)) from rfl,
      ihp, Bool.and_true, ← hx]
    exact p2CleanAt_of_none _ htrans

/-- Claim C8: a non-200 response built from a thrown non-timeout upstream
failure carries the upstream message only after `redactSensitiveText`; and
for every input string the redacted output contains no substring matching
the credential pattern `sk-` followed by 12 or more key characters
(`hasSkSecret` is false), and every api-key-labelled value occurring in
the redacted output is the literal `***REDACTED***` placeholder
(`p2Clean` holds), so no api-key-labelled value survives unredacted. -/
theorem C8_redaction_spec (prompt : String) (tr : List (String × JResponse))
    (s : Nat) (m : String) (v : String) :
    ((runCatch prompt tr (UpErr.upstreamE s m)).status ≠ 200 →
      isTimeoutError (UpErr.upstreamE s m) = false →
      (runCatch prompt tr (UpErr.upstreamE s m)).errorField
        = some (redactSensitiveText m)) ∧
    hasSkSecret (redactSensitiveText v).data = false ∧
    p2Clean (redactSensitiveText v).data = true := by
  refine ⟨?_, ?_, ?_⟩
  · intro hst hto
    simp only [runCatch] at hst ⊢
    rw [if_neg (by simp [hto])] at hst ⊢
    simp only [catchUpstream] at hst ⊢
    by_cases hc : prompt ≠ "" ∧ 500 ≤ (if s = 0 then 502 else s)
    · rw [if_pos hc] at hst
      exact absurd rfl hst
    · rw [if_neg hc]
  · unfold redactSensitiveText
    by_cases hv : v = ""
    · rw [if_pos hv]
      rfl
    · rw [if_neg hv]
      show hasSkSecret (redactApiKey (redactSk v.data)) = false
      unfold redactApiKey
      exact redactApiKeyGo_sk (redactSk v.data).length (redactSk v.data)
        (Nat.le_refl _) (redactSk_clean v.data)
  · unfold redactSensitiveText
    by_cases hv : v = ""
    · rw [if_pos hv]
      rfl
    · rw [if_neg hv]
      show p2Clean (redactApiKey (redactSk v.data)) = true
      unfold redactApiKey
      exact (redactApiKeyGo_p2 (redactSk v.data).length (redactSk v.data)
        (Nat.le_refl _)).1

/-- Claim C8, witness: a 401 with an embedded key propagates with the
message redacted, and the redacted message passes the secret scan. -/
theorem C8_redaction_witness :
    (runCatch "" []
        (UpErr.upstreamE 401 "api_key: sk-AAAAAAAAAAAAAAAA da rimuovere")).errorField
      = some (redactSensitiveText "api_key: sk-AAAAAAAAAAAAAAAA da rimuovere") ∧
    hasSkSecret
      (redactSensitiveText "api_key: sk-AAAAAAAAAAAAAAAA da rimuovere").data
      = false :=
  ⟨(C8_redaction_spec "" [] 401 "api_key: sk-AAAAAAAAAAAAAAAA da rimuovere"
      "api_key: sk-AAAAAAAAAAAAAAAA da rimuovere").1 (by decide) (by decide),
   (C8_redaction_spec "" [] 401 "api_key: sk-AAAAAAAAAAAAAAAA da rimuovere"
      "api_key: sk-AAAAAAAAAAAAAAAA da rimuovere").2.1⟩

end PromptForge
